import Mathlib

/-!
# Odissey: periodic maintenance and accept loop

A shallow embedding of `sources/periodic.c` (`od_periodic_stats`,
`od_expire_mark`, `od_periodic`) and of `src/od_pooler.c` (`od_pooler_main`,
`od_pooler_init`), followed by the properties proved about them.

Conventions of the embedding.

* C `int` values are `Int`; no arithmetic of the embedded code can leave the
  `int` range (`idle_time` is only incremented below `pool_ttl`, `tick` below
  `log_statistics`). The 64-bit `client_seq` is a `Nat` reduced modulo `2^64`.
* A pointer to a server is the server record, whose `id` is its identity; a
  bucket of a server pool is the list of the records linked in it, head first.
* A route owns its pools by value. Code that reaches the route through
  `server->route` receives the route whose pool holds the server (invariant I1
  of the data model); the back-pointer itself is kept as a field so that the
  reaper's `server->route = NULL` is visible.
* Calls into the machinarium library and allocation are resolved by an
  explicit outcome record (return codes chosen by the environment); the calls
  the code makes and the messages it enqueues are collected in an event list.
* `od_debug_server` lines of the aging callback are not recorded.
-/

namespace Odissey

/-! ## Data model -/

/-- Modelled from the spec: the server lifecycle states (§3), whose
declaration is in a header that is not among the sources. -/
inductive od_serverstate_t
  | OD_SUNDEF
  | OD_SIDLE
  | OD_SEXPIRE
  | OD_SCLOSE
  | OD_SCONNECT
  | OD_SACTIVE
  deriving DecidableEq

open od_serverstate_t

/-- Modelled from the spec: route identity, the (database, user) pair of
byte strings (§3). `od_periodic_stats` prints `database_len` bytes of
`database` and `user_len` bytes of `user`, which are these strings. -/
structure od_routeid_t where
  database : String
  user : String
  deriving DecidableEq

/-- Modelled from the spec: an upstream server connection (§3), with the
fields periodic.c reads and writes (`id`, `idle_time`, `route`, `io`) and its
state. `route` is the weak back-pointer (`none` is `NULL`), `io` the handle of
its connection. -/
structure od_server_t where
  id : Nat
  state : od_serverstate_t
  idle_time : Int
  route : Option od_routeid_t
  io : Nat
  deriving DecidableEq

/-- Modelled from the spec: the per-route server pool (§3), one bucket per
state (none for `OD_SUNDEF`) and the `count_<state>` counters, of which
periodic.c reads `count_active` and `count_idle`. -/
structure od_serverpool_t where
  active : List od_server_t
  connect : List od_server_t
  idle : List od_server_t
  expire : List od_server_t
  close : List od_server_t
  count_active : Int
  count_connect : Int
  count_idle : Int
  count_expire : Int
  count_close : Int
  deriving DecidableEq

/-- Modelled from the spec: the per-route client pool (§3), two buckets
(pending, active) of which Periodic only needs the counters. -/
structure od_clientpool_t where
  count_active : Int
  count_pending : Int
  deriving DecidableEq

/-- Modelled from the spec: the per-route policy (§3): TTL seconds
(`route->scheme->pool_ttl` in periodic.c), pool size limit, static or
dynamic. -/
structure od_schemeroute_t where
  pool_ttl : Int
  pool_size : Int
  is_dynamic : Bool
  deriving DecidableEq

/-- Modelled from the spec: a route (§3), with the fields periodic.c reads:
identity, policy and the two pools. -/
structure od_route_t where
  id : od_routeid_t
  scheme : od_schemeroute_t
  server_pool : od_serverpool_t
  client_pool : od_clientpool_t
  deriving DecidableEq

/-- Modelled from the spec: the route pool (§3), the routes in insertion
order (`route_pool.list`) and their count (`route_pool.count`). -/
structure od_routepool_t where
  list : List od_route_t
  count : Int
  deriving DecidableEq

/-! ## Server pool and route pool operations -/

/-- Modelled from the spec: the bucket of a `ServerPool` for a state (§3: one
ordered sequence per state, `UNDEF` being detached from any bucket). -/
def od_serverpool_bucket (pool : od_serverpool_t) : od_serverstate_t → List od_server_t
  | OD_SUNDEF => []
  | OD_SIDLE => pool.idle
  | OD_SEXPIRE => pool.expire
  | OD_SCLOSE => pool.close
  | OD_SCONNECT => pool.connect
  | OD_SACTIVE => pool.active

/-- Modelled from the spec: first half of `ServerPool.set` (§4.1), which
removes the server from its current bucket and updates that counter. -/
def od_serverpool_unlink (pool : od_serverpool_t) (server : od_server_t) : od_serverpool_t :=
  match server.state with
  | OD_SUNDEF => pool
  | OD_SIDLE =>
    { pool with idle := pool.idle.filter (fun s => s.id != server.id),
                count_idle := pool.count_idle - 1 }
  | OD_SEXPIRE =>
    { pool with expire := pool.expire.filter (fun s => s.id != server.id),
                count_expire := pool.count_expire - 1 }
  | OD_SCLOSE =>
    { pool with close := pool.close.filter (fun s => s.id != server.id),
                count_close := pool.count_close - 1 }
  | OD_SCONNECT =>
    { pool with connect := pool.connect.filter (fun s => s.id != server.id),
                count_connect := pool.count_connect - 1 }
  | OD_SACTIVE =>
    { pool with active := pool.active.filter (fun s => s.id != server.id),
                count_active := pool.count_active - 1 }

/-- Modelled from the spec: second half of `ServerPool.set` (§4.1), which
inserts the server at the tail of the bucket of the new state and updates that
counter. -/
def od_serverpool_link (pool : od_serverpool_t) (server : od_server_t) : od_serverpool_t :=
  match server.state with
  | OD_SUNDEF => pool
  | OD_SIDLE =>
    { pool with idle := pool.idle ++ [server], count_idle := pool.count_idle + 1 }
  | OD_SEXPIRE =>
    { pool with expire := pool.expire ++ [server], count_expire := pool.count_expire + 1 }
  | OD_SCLOSE =>
    { pool with close := pool.close ++ [server], count_close := pool.count_close + 1 }
  | OD_SCONNECT =>
    { pool with connect := pool.connect ++ [server], count_connect := pool.count_connect + 1 }
  | OD_SACTIVE =>
    { pool with active := pool.active ++ [server], count_active := pool.count_active + 1 }

/-- Modelled from the spec: `od_serverpool_set`, absent from the sources
(§4.1 `set(server, new_state)`: removes `server` from its current bucket and
inserts it at the tail of the `new_state` bucket, updating both counters).
Returns the pool and the server with its new state. -/
def od_serverpool_set (pool : od_serverpool_t) (server : od_server_t)
    (state : od_serverstate_t) : od_serverpool_t × od_server_t :=
  let server1 := { server with state := state }
  (od_serverpool_link (od_serverpool_unlink pool server) server1, server1)

/-- Write of a field through a server pointer: the record linked in the
bucket of the server's state is replaced by the updated one. -/
def od_serverpool_store (pool : od_serverpool_t) (server : od_server_t) : od_serverpool_t :=
  let upd := fun (s : od_server_t) => if s.id = server.id then server else s
  match server.state with
  | OD_SUNDEF => pool
  | OD_SIDLE => { pool with idle := pool.idle.map upd }
  | OD_SEXPIRE => { pool with expire := pool.expire.map upd }
  | OD_SCLOSE => { pool with close := pool.close.map upd }
  | OD_SCONNECT => { pool with connect := pool.connect.map upd }
  | OD_SACTIVE => { pool with active := pool.active.map upd }

/-- Modelled from the spec: the removal `ServerPool.next` does (§4.1), the
head of the bucket of the state leaves it and the counter follows. -/
def od_serverpool_pop (pool : od_serverpool_t) : od_serverstate_t → od_serverpool_t
  | OD_SUNDEF => pool
  | OD_SIDLE => { pool with idle := pool.idle.tail, count_idle := pool.count_idle - 1 }
  | OD_SEXPIRE => { pool with expire := pool.expire.tail, count_expire := pool.count_expire - 1 }
  | OD_SCLOSE => { pool with close := pool.close.tail, count_close := pool.count_close - 1 }
  | OD_SCONNECT =>
    { pool with connect := pool.connect.tail, count_connect := pool.count_connect - 1 }
  | OD_SACTIVE => { pool with active := pool.active.tail, count_active := pool.count_active - 1 }

/-- Modelled from the spec: `od_serverpool_next`, absent from the sources
(§4.1 `next(state)`: returns and removes the head of the `state` bucket,
leaving the server in `UNDEF`). -/
def od_serverpool_next (pool : od_serverpool_t) (state : od_serverstate_t) :
    Option (od_server_t × od_serverpool_t) :=
  match od_serverpool_bucket pool state with
  | [] => none
  | server :: _ => some ({ server with state := OD_SUNDEF }, od_serverpool_pop pool state)

/-- Modelled from the spec: the traversal of `ServerPool.foreach` (§4.1) over
the servers that were in the bucket when it started: the callback runs on each
in order against the current route, and a non-zero result stops it. -/
def od_serverpool_foreach_loop (callback : od_route_t → od_server_t → od_route_t × Int) :
    List od_server_t → od_route_t → od_route_t × Option od_server_t
  | [], route => (route, none)
  | server :: rest, route =>
    if (callback route server).2 ≠ 0 then ((callback route server).1, some server)
    else od_serverpool_foreach_loop callback rest (callback route server).1

/-- Modelled from the spec: `od_serverpool_foreach`, absent from the sources
(§4.1 `foreach(state, fn, ctx)`: applies `fn` to each server of the bucket in
order; the iterator holds the next pointer before invoking `fn`, so the
callback may move the current server out). The traversal therefore visits the
servers that were in the bucket when it started. -/
def od_serverpool_foreach (route : od_route_t) (state : od_serverstate_t)
    (callback : od_route_t → od_server_t → od_route_t × Int) :
    od_route_t × Option od_server_t :=
  od_serverpool_foreach_loop callback (od_serverpool_bucket route.server_pool state) route

/-- Modelled from the spec: the routes of `RoutePool.foreach` (§4.3), in
insertion order; it stops at the first server on which the callback answers
non-zero. -/
def od_routepool_foreach_loop (state : od_serverstate_t)
    (callback : od_route_t → od_server_t → od_route_t × Int) :
    List od_route_t → List od_route_t × Option od_server_t
  | [] => ([], none)
  | route :: rest =>
    match (od_serverpool_foreach route state callback).2 with
    | some server => ((od_serverpool_foreach route state callback).1 :: rest, some server)
    | none =>
      ((od_serverpool_foreach route state callback).1 ::
        (od_routepool_foreach_loop state callback rest).1,
       (od_routepool_foreach_loop state callback rest).2)

/-- Modelled from the spec: `od_routepool_foreach`, absent from the sources
(§4.3 `foreach(state, fn, ctx)`: iterate every Route in insertion order and
within each invoke `ServerPool.foreach`). -/
def od_routepool_foreach (pool : od_routepool_t) (state : od_serverstate_t)
    (callback : od_route_t → od_server_t → od_route_t × Int) :
    od_routepool_t × Option od_server_t :=
  ({ pool with list := (od_routepool_foreach_loop state callback pool.list).1 },
   (od_routepool_foreach_loop state callback pool.list).2)

/-- Modelled from the spec: the scan of `RoutePool.next` (§4.3): the first
route, in order, whose bucket is not empty gives its head; the result carries
the position of that route. -/
def od_routepool_next_loop (state : od_serverstate_t) :
    List od_route_t → Option (od_server_t × Nat × List od_route_t)
  | [] => none
  | route :: rest =>
    match od_serverpool_next route.server_pool state with
    | some (server, pool1) => some (server, 0, { route with server_pool := pool1 } :: rest)
    | none =>
      match od_routepool_next_loop state rest with
      | some (server, i, rest1) => some (server, i + 1, route :: rest1)
      | none => none

/-- Modelled from the spec: `od_routepool_next`, absent from the sources
(§4.3 `next(state)`: scan Routes in order; return the first server in `state`
via `ServerPool.next`). The position is that of the route `server->route`
points to. -/
def od_routepool_next (pool : od_routepool_t) (state : od_serverstate_t) :
    Option (od_server_t × Nat × od_routepool_t) :=
  match od_routepool_next_loop state pool.list with
  | some (server, i, list1) => some (server, i, { pool with list := list1 })
  | none => none

/-- Modelled from the spec: the total a `ServerPool` reports (§3 I4), the sum
of its counters. -/
def od_serverpool_total (pool : od_serverpool_t) : Int :=
  pool.count_active + pool.count_connect + pool.count_idle + pool.count_expire +
    pool.count_close

/-- Modelled from the spec: `od_clientpool_total`, absent from the sources
(§4.2 `total()` returning the sum of the two counters). -/
def od_clientpool_total (pool : od_clientpool_t) : Int :=
  pool.count_active + pool.count_pending

/-- Modelled from the spec: GC eligibility (§3 I4: a dynamic Route is
GC-eligible iff both its pools report zero total). -/
def od_route_is_unused (route : od_route_t) : Bool :=
  route.scheme.is_dynamic && od_serverpool_total route.server_pool == 0 &&
    od_clientpool_total route.client_pool == 0

/-- Modelled from the spec: `od_routepool_gc`, absent from the sources
(§4.3 `gc()`: remove and destroy every dynamic Route whose server and client
pools are both empty). -/
def od_routepool_gc (pool : od_routepool_t) : od_routepool_t :=
  { list := pool.list.filter (fun r => !od_route_is_unused r),
    count := pool.count -
      ((pool.list.length : Int) -
        ((pool.list.filter (fun r => !od_route_is_unused r)).length : Int)) }

/-- Write through a route pointer: the route at the given position of the
list is replaced by its update. -/
def od_route_at (f : od_route_t → od_route_t) : Nat → List od_route_t → List od_route_t
  | _, [] => []
  | 0, route :: rest => f route :: rest
  | i + 1, route :: rest => route :: od_route_at f i rest

/-! ## `sources/periodic.c` -/

/-- A record written with `od_log`. -/
inductive od_log_record
  | text (msg : String)
  | route_stats (database user : String) (clients pool_active pool_idle : Int)
  deriving DecidableEq

/-- `od_periodic_stats` (periodic.c:48-71): nothing when the pool counts no
route, else the header and one line per route of the list. -/
def od_periodic_stats (route_pool : od_routepool_t) : List od_log_record :=
  if route_pool.count = 0 then []
  else
    od_log_record.text "statistics" ::
      route_pool.list.map (fun route =>
        od_log_record.route_stats route.id.database route.id.user
          (od_clientpool_total route.client_pool)
          route.server_pool.count_active
          route.server_pool.count_idle)

/-- `od_expire_mark` (periodic.c:73-99), the aging callback. `route` is
`server->route`. -/
def od_expire_mark (route : od_route_t) (server : od_server_t) : od_route_t × Int :=
  if route.scheme.pool_ttl = 0 then (route, 0)
  else if server.idle_time < route.scheme.pool_ttl then
    let server1 := { server with idle_time := server.idle_time + 1 }
    ({ route with server_pool := od_serverpool_store route.server_pool server1 }, 0)
  else
    ({ route with server_pool := (od_serverpool_set route.server_pool server OD_SEXPIRE).1 }, 0)

/-- What the sweep of expired connections does, in order. -/
inductive od_periodic_event
  | debug_closing (server : Nat) (idle_time : Int)
  | io_attach (io : Nat)
  | backend_terminate (server : od_server_t) (rc : Int)
  | backend_close (server : od_server_t)
  | routepool_gc
  deriving DecidableEq

/-- One pass through the body of the sweep loop (periodic.c:146-165) for the
server `od_routepool_next` returned from the route at position `i`. -/
def od_periodic_reap (terminate : od_server_t → Int) (server : od_server_t) (i : Nat)
    (pool : od_routepool_t) : od_routepool_t × List od_periodic_event :=
  let server1 := { server with idle_time := 0 }
  let server2 := { server1 with route := none }
  let set := fun (route : od_route_t) =>
    { route with server_pool := (od_serverpool_set route.server_pool server2 OD_SUNDEF).1 }
  let pool1 := { pool with list := od_route_at set i pool.list }
  let server3 := { server2 with state := OD_SUNDEF }
  (od_routepool_gc pool1,
   [od_periodic_event.debug_closing server.id server.idle_time,
    od_periodic_event.io_attach server3.io,
    od_periodic_event.backend_terminate server3 (terminate server3),
    od_periodic_event.backend_close server3,
    od_periodic_event.routepool_gc])

/-- The sweep of expired connections (periodic.c:144-166): the `for (;;)`
loop unrolled at most `fuel` times; `none` when `fuel` passes did not reach
the `break`. `terminate` gives the result of `od_backend_terminate`. -/
def od_periodic_sweep (terminate : od_server_t → Int) :
    Nat → od_routepool_t → Option (od_routepool_t × List od_periodic_event)
  | 0, _ => none
  | fuel + 1, pool =>
    match od_routepool_next pool OD_SEXPIRE with
    | none => some (pool, [])
    | some (server, i, pool1) =>
      match od_periodic_sweep terminate fuel (od_periodic_reap terminate server i pool1).1 with
      | none => none
      | some (pool2, events) =>
        some (pool2, (od_periodic_reap terminate server i pool1).2 ++ events)

/-- Number of servers waiting in the `EXPIRE` buckets of the routes. -/
def od_expire_pending (list : List od_route_t) : Nat :=
  (list.map (fun route => route.server_pool.expire.length)).sum

/-- State of the Periodic coroutine between two ticks: the router's route
pool and the local `tick`. -/
structure od_periodic_state where
  route_pool : od_routepool_t
  tick : Int
  deriving DecidableEq

/-- What one tick did: the events of the sweep and, when `od_periodic_stats`
was called, what it logged. -/
structure od_periodic_output where
  sweep : List od_periodic_event
  stats : Option (List od_log_record)
  deriving DecidableEq

/-- The statistics step of a tick (periodic.c:168-175). -/
def od_periodic_tick_stats (log_statistics : Int) (route_pool : od_routepool_t) (tick : Int) :
    Int × Option (List od_log_record) :=
  if log_statistics > 0 then
    if tick + 1 ≥ log_statistics then (0, some (od_periodic_stats route_pool))
    else (tick + 1, none)
  else (tick, none)

/-- One iteration of the loop of `od_periodic` (periodic.c:109-179): aging
pass, sweep, statistics. The sweep is given one pass per server pending in
`EXPIRE` after aging, plus the pass that finds none. -/
def od_periodic_tick (log_statistics : Int) (terminate : od_server_t → Int)
    (st : od_periodic_state) : Option (od_periodic_state × od_periodic_output) :=
  let aged := (od_routepool_foreach st.route_pool OD_SIDLE od_expire_mark).1
  match od_periodic_sweep terminate (od_expire_pending aged.list + 1) aged with
  | none => none
  | some (swept, events) =>
    some ({ route_pool := swept,
            tick := (od_periodic_tick_stats log_statistics swept st.tick).1 },
          { sweep := events,
            stats := (od_periodic_tick_stats log_statistics swept st.tick).2 })

/-- The first `n` iterations of `od_periodic` (periodic.c:101-180), with the
outputs of the ticks in order. -/
def od_periodic (log_statistics : Int) (terminate : od_server_t → Int) :
    Nat → od_periodic_state → Option (od_periodic_state × List od_periodic_output)
  | 0, st => some (st, [])
  | n + 1, st =>
    match od_periodic log_statistics terminate n st with
    | none => none
    | some (st1, outs) =>
      match od_periodic_tick log_statistics terminate st1 with
      | none => none
      | some (st2, out) => some (st2, outs ++ [out])

/-- Whether tick number `t`, counted from 1, of a run called
`od_periodic_stats`. -/
def od_stats_emitted (outs : List od_periodic_output) : Nat → Bool
  | 0 => false
  | t + 1 =>
    match outs.get? t with
    | some out => out.stats.isSome
    | none => false

/-! ## `src/od_pooler.c` -/

/-- Modelled from the spec: a client object (§4.6), with the two fields
od_pooler.c writes; `io` is the attached handle. -/
structure od_client_t where
  id : Nat
  io : Option Nat
  deriving DecidableEq

/-- Modelled from the spec: the pooler, with the fields od_pooler.c uses:
machine id, listening io, next client sequence number (64 bits, §4.6) and TLS
context. -/
structure od_pooler_t where
  machine : Int
  server : Option Nat
  client_seq : Nat
  tls : Option Nat
  deriving DecidableEq

/-- Modelled from the spec: the options of the instance scheme the pooler
reads (§6). `tls_disabled` is `scheme->tls_verify == OD_TDISABLE`. -/
structure od_scheme_t where
  host : String
  port : Int
  backlog : Int
  nodelay : Int
  keepalive : Int
  readahead : Int
  tls_disabled : Bool
  deriving DecidableEq

/-- What the environment answers while the pooler sets up its listener:
the context of `od_tls_frontend`, the result of `machine_getaddrinfo`, the
handle of `machine_io_create` and the result of `machine_bind`. -/
structure od_listen_outcome where
  tls : Option Nat
  getaddrinfo_rc : Int
  server : Option Nat
  bind_rc : Int
  deriving DecidableEq

/-- What the environment answers during one pass of the accept loop: the
results of `machine_accept` (with the accepted handle), `machine_set_nodelay`,
`machine_set_keepalive`, `machine_set_readahead`, `machine_io_detach`, and the
object of `od_client_allocate` (`none` is `NULL`). -/
structure od_accept_outcome where
  accept_rc : Int
  client_io : Nat
  nodelay_rc : Int
  keepalive_rc : Int
  readahead_rc : Int
  detach_rc : Int
  client : Option od_client_t
  deriving DecidableEq

/-- What the pooler does that others can see. `queue_put` is the
`OD_MCLIENT_NEW` message with the client it carries. -/
inductive od_pooler_event
  | error (msg : String)
  | log (msg : String)
  | set_nodelay (io : Nat) (enable : Int)
  | set_keepalive (io : Nat) (enable : Int) (delay : Int)
  | set_readahead (io : Nat) (size : Int)
  | io_detach (io : Nat)
  | close (io : Nat)
  | io_free (io : Nat)
  | queue_put (client : od_client_t)
  deriving DecidableEq

/-- `od_pooler_init` (od_pooler.c:230-237). -/
def od_pooler_init (pooler : od_pooler_t) : od_pooler_t :=
  { pooler with machine := -1, server := none, client_seq := 0 }

/-- The network options set on an accepted handle (od_pooler.c:124-128);
the results of `machine_set_nodelay` and `machine_set_keepalive` are not
looked at. -/
def od_pooler_set_options (scheme : od_scheme_t) (io : Nat) : List od_pooler_event :=
  [od_pooler_event.set_nodelay io scheme.nodelay] ++
    (if scheme.keepalive > 0 then [od_pooler_event.set_keepalive io 1 scheme.keepalive]
     else []) ++
    [od_pooler_event.set_readahead io scheme.readahead]

/-- One pass through the body of the accept loop of `od_pooler_main`
(od_pooler.c:115-162). -/
def od_pooler_accept (scheme : od_scheme_t) (pooler : od_pooler_t) (o : od_accept_outcome) :
    od_pooler_t × List od_pooler_event :=
  if o.accept_rc < 0 then
    (pooler, [od_pooler_event.error "pooler: accept failed"])
  else if o.readahead_rc = -1 then
    (pooler, od_pooler_set_options scheme o.client_io ++
      [od_pooler_event.error "failed to set client readahead",
       od_pooler_event.close o.client_io, od_pooler_event.io_free o.client_io])
  else if o.detach_rc = -1 then
    (pooler, od_pooler_set_options scheme o.client_io ++
      [od_pooler_event.io_detach o.client_io,
       od_pooler_event.error "failed to transfer client io",
       od_pooler_event.close o.client_io, od_pooler_event.io_free o.client_io])
  else
    match o.client with
    | none =>
      (pooler, od_pooler_set_options scheme o.client_io ++
        [od_pooler_event.io_detach o.client_io,
         od_pooler_event.error "failed to allocate client object",
         od_pooler_event.close o.client_io, od_pooler_event.io_free o.client_io])
    | some client =>
      ({ pooler with client_seq := (pooler.client_seq + 1) % 2 ^ 64 },
       od_pooler_set_options scheme o.client_io ++
        [od_pooler_event.io_detach o.client_io,
         od_pooler_event.queue_put
           { client with id := pooler.client_seq, io := some o.client_io }])

/-- The accept loop of `od_pooler_main` (od_pooler.c:114-162): one pass per
outcome, `machine_active()` holding before each and failing after the last. -/
def od_pooler_main_loop (scheme : od_scheme_t) :
    od_pooler_t → List od_accept_outcome → od_pooler_t × List od_pooler_event
  | pooler, [] => (pooler, [])
  | pooler, o :: rest =>
    ((od_pooler_main_loop scheme (od_pooler_accept scheme pooler o).1 rest).1,
     (od_pooler_accept scheme pooler o).2 ++
       (od_pooler_main_loop scheme (od_pooler_accept scheme pooler o).1 rest).2)

/-- The loop entered once the listener is bound (od_pooler.c:107-162). -/
def od_pooler_main_listen (scheme : od_scheme_t) (pooler : od_pooler_t)
    (accepts : List od_accept_outcome) : od_pooler_t × List od_pooler_event :=
  ((od_pooler_main_loop scheme pooler accepts).1,
   [od_pooler_event.log "", od_pooler_event.log "listening on %s:%d", od_pooler_event.log ""] ++
     (od_pooler_main_loop scheme pooler accepts).2)

/-- `od_pooler_main` (od_pooler.c:45-163): TLS context, address resolution,
listener, then the accept loop. -/
def od_pooler_main (scheme : od_scheme_t) (pooler : od_pooler_t) (listen : od_listen_outcome)
    (accepts : List od_accept_outcome) : od_pooler_t × List od_pooler_event :=
  let tls := if scheme.tls_disabled then none else listen.tls
  if !scheme.tls_disabled && listen.tls.isNone then ({ pooler with tls := tls }, [])
  else if listen.getaddrinfo_rc < 0 then
    ({ pooler with tls := tls }, [od_pooler_event.error "failed to resolve %s:%d"])
  else
    match listen.server with
    | none =>
      ({ pooler with tls := tls, server := none },
       [od_pooler_event.error "failed to create pooler io"])
    | some io =>
      if listen.bind_rc < 0 then
        ({ pooler with tls := tls, server := some io }, [od_pooler_event.error "bind %s:%d failed"])
      else od_pooler_main_listen scheme { pooler with tls := tls, server := some io } accepts

/-- The clients of the `OD_MCLIENT_NEW` messages put on the task queue, in
the order they were put. -/
def od_queued_clients : List od_pooler_event → List od_client_t
  | [] => []
  | od_pooler_event.queue_put client :: rest => client :: od_queued_clients rest
  | _ :: rest => od_queued_clients rest

/-- The handles closed with `machine_close`, in order. -/
def od_closed_ios : List od_pooler_event → List Nat
  | [] => []
  | od_pooler_event.close io :: rest => io :: od_closed_ios rest
  | _ :: rest => od_closed_ios rest

/-- The handles released with `machine_io_free`, in order. -/
def od_freed_ios : List od_pooler_event → List Nat
  | [] => []
  | od_pooler_event.io_free io :: rest => io :: od_freed_ios rest
  | _ :: rest => od_freed_ios rest

/-- A pass of the accept loop in which `machine_accept`,
`machine_set_readahead`, `machine_io_detach` or `od_client_allocate` fails. -/
def od_accept_failed (o : od_accept_outcome) : Prop :=
  o.accept_rc < 0 ∨ o.readahead_rc = -1 ∨ o.detach_rc = -1 ∨ o.client = none

instance (o : od_accept_outcome) : Decidable (od_accept_failed o) := by
  unfold od_accept_failed; infer_instance

/-! ## Concrete inputs -/

/-- A listener configuration: nodelay on, keepalive 7 s, TLS disabled. -/
def ex_scheme : od_scheme_t :=
  { host := "*", port := 6432, backlog := 128, nodelay := 1, keepalive := 7,
    readahead := 8192, tls_disabled := true }

/-- A pooler before `od_pooler_init`. -/
def ex_pooler : od_pooler_t :=
  { machine := 0, server := none, client_seq := 0, tls := none }

/-- A listener set up without error on handle 1. -/
def ex_listen : od_listen_outcome :=
  { tls := none, getaddrinfo_rc := 0, server := some 1, bind_rc := 0 }

/-- A connection accepted on handle `io` whose steps all succeed. -/
def ex_accept_ok (io : Nat) : od_accept_outcome :=
  { accept_rc := 0, client_io := io, nodelay_rc := 0, keepalive_rc := 0, readahead_rc := 0,
    detach_rc := 0, client := some { id := 0, io := none } }

/-- A connection accepted on handle `io` on which `machine_set_readahead`
fails. -/
def ex_accept_readahead_fails (io : Nat) : od_accept_outcome :=
  { ex_accept_ok io with readahead_rc := -1 }

/-- A connection accepted on handle `io` on which `machine_set_nodelay` and
`machine_set_keepalive` fail and every other step succeeds. -/
def ex_accept_options_fail (io : Nat) : od_accept_outcome :=
  { ex_accept_ok io with nodelay_rc := -1, keepalive_rc := -1 }

/-- The route identity of the examples. -/
def ex_routeid : od_routeid_t := { database := "db", user := "user" }

/-- An idle server `id` of the example route with the given idle time. -/
def ex_server (id : Nat) (idle_time : Int) : od_server_t :=
  { id := id, state := OD_SIDLE, idle_time := idle_time, route := some ex_routeid,
    io := 100 + id }

/-- An active server `id` of the example route. -/
def ex_server_active (id : Nat) : od_server_t :=
  { id := id, state := OD_SACTIVE, idle_time := 0, route := some ex_routeid, io := 100 + id }

/-- A client-less route with the given TTL and kind holding the given active
and idle servers, counters matching. -/
def ex_route (ttl : Int) (dynamic : Bool) (active idle : List od_server_t) : od_route_t :=
  { id := ex_routeid,
    scheme := { pool_ttl := ttl, pool_size := 10, is_dynamic := dynamic },
    server_pool :=
      { active := active, connect := [], idle := idle, expire := [], close := [],
        count_active := active.length, count_connect := 0, count_idle := idle.length,
        count_expire := 0, count_close := 0 },
    client_pool := { count_active := 0, count_pending := 0 } }

/-- A dynamic route with TTL 1 serving one client on an active server, with
one more server idle. -/
def ex_route_busy : od_route_t :=
  { ex_route 1 true [ex_server_active 2] [ex_server 1 0] with
    client_pool := { count_active := 1, count_pending := 0 } }

/-- The route `ex_route_busy` once its idle server is gone. -/
def ex_route_busy_after : od_route_t :=
  { ex_route 1 true [ex_server_active 2] [] with
    client_pool := { count_active := 1, count_pending := 0 } }

/-- A dynamic, client-less route with TTL 1 holding the given idle servers
and one server in `CLOSE`. -/
def ex_route_closing (idle : List od_server_t) : od_route_t :=
  { id := ex_routeid,
    scheme := { pool_ttl := 1, pool_size := 10, is_dynamic := true },
    server_pool :=
      { active := [], connect := [], idle := idle, expire := [],
        close := [{ id := 2, state := OD_SCLOSE, idle_time := 0, route := some ex_routeid,
                    io := 102 }],
        count_active := 0, count_connect := 0, count_idle := idle.length,
        count_expire := 0, count_close := 1 },
    client_pool := { count_active := 0, count_pending := 0 } }

/-- A route pool of one route. -/
def ex_pool (route : od_route_t) : od_routepool_t :=
  { list := [route], count := 1 }

/-- A server `id` waiting in `EXPIRE` with the given idle time. -/
def ex_server_expire (id : Nat) (idle_time : Int) : od_server_t :=
  { id := id, state := OD_SEXPIRE, idle_time := idle_time, route := some ex_routeid,
    io := 100 + id }

/-- A client-less route of database `name` with TTL 3 holding the given
servers in `EXPIRE`, counters matching. -/
def ex_route_expiring (name : String) (dynamic : Bool) (expire : List od_server_t) :
    od_route_t :=
  { id := { database := name, user := "user" },
    scheme := { pool_ttl := 3, pool_size := 10, is_dynamic := dynamic },
    server_pool :=
      { active := [], connect := [], idle := [], expire := expire, close := [],
        count_active := 0, count_connect := 0, count_idle := 0,
        count_expire := expire.length, count_close := 0 },
    client_pool := { count_active := 0, count_pending := 0 } }

/-- A pool of a dynamic route with two expired servers and a static route
with one. -/
def ex_pool_expiring : od_routepool_t :=
  { list := [ex_route_expiring "a" true [ex_server_expire 1 3, ex_server_expire 2 3],
             ex_route_expiring "b" false [ex_server_expire 3 3]],
    count := 2 }

/-- A terminate that always fails. -/
def ex_terminate_fails : od_server_t → Int := fun _ => -1

/-! ## Closed forms used in the proofs -/

/-- The servers of an aging pass that stay in `IDLE`, one second older. -/
def od_aged_keep (ttl : Int) (idle : List od_server_t) : List od_server_t :=
  (idle.filter (fun s => decide (s.idle_time < ttl))).map
    (fun s => { s with idle_time := s.idle_time + 1 })

/-- The servers of an aging pass that move to `EXPIRE`, as they arrive there. -/
def od_aged_move (ttl : Int) (idle : List od_server_t) : List od_server_t :=
  (idle.filter (fun s => !decide (s.idle_time < ttl))).map
    (fun s => { s with state := OD_SEXPIRE })

/-- A route after the aging pass, written without traversal. -/
def od_route_aged (route : od_route_t) : od_route_t :=
  if route.scheme.pool_ttl = 0 then route
  else
    { route with server_pool :=
      { route.server_pool with
        idle := od_aged_keep route.scheme.pool_ttl route.server_pool.idle,
        expire := route.server_pool.expire ++
          od_aged_move route.scheme.pool_ttl route.server_pool.idle,
        count_idle := route.server_pool.count_idle -
          (od_aged_move route.scheme.pool_ttl route.server_pool.idle).length,
        count_expire := route.server_pool.count_expire +
          (od_aged_move route.scheme.pool_ttl route.server_pool.idle).length } }

/-- I2 and the state field, for the `IDLE` bucket of a route: its servers are
marked `IDLE` and no identifier occurs twice. -/
def od_idle_wf (route : od_route_t) : Prop :=
  (∀ s ∈ route.server_pool.idle, s.state = OD_SIDLE) ∧
    (route.server_pool.idle.map (fun s => s.id)).Nodup

instance (route : od_route_t) : Decidable (od_idle_wf route) := by
  unfold od_idle_wf; infer_instance

/-- I5 for a route: every counter of its server pool is the length of its
bucket. -/
def od_counters_wf (route : od_route_t) : Prop :=
  route.server_pool.count_active = route.server_pool.active.length ∧
  route.server_pool.count_connect = route.server_pool.connect.length ∧
  route.server_pool.count_idle = route.server_pool.idle.length ∧
  route.server_pool.count_expire = route.server_pool.expire.length ∧
  route.server_pool.count_close = route.server_pool.close.length

instance (route : od_route_t) : Decidable (od_counters_wf route) := by
  unfold od_counters_wf; infer_instance

/-- A route after all the servers of its `EXPIRE` bucket were taken. -/
def od_route_reaped (route : od_route_t) : od_route_t :=
  { route with server_pool :=
    { route.server_pool with
      expire := [],
      count_expire := route.server_pool.count_expire - route.server_pool.expire.length } }

/-- The servers waiting in `EXPIRE`, route after route, head first. -/
def od_expire_servers (list : List od_route_t) : List od_server_t :=
  list.flatMap (fun route => route.server_pool.expire)

/-- The server as the sweep hands it to `od_backend_terminate`. -/
def od_server_reaped (server : od_server_t) : od_server_t :=
  { server with state := OD_SUNDEF, idle_time := 0, route := none }

/-- The events of reaping the given servers one after the other. -/
def od_reap_events (terminate : od_server_t → Int) (servers : List od_server_t) :
    List od_periodic_event :=
  servers.flatMap (fun server =>
    [od_periodic_event.debug_closing server.id server.idle_time,
     od_periodic_event.io_attach server.io,
     od_periodic_event.backend_terminate (od_server_reaped server)
       (terminate (od_server_reaped server)),
     od_periodic_event.backend_close (od_server_reaped server),
     od_periodic_event.routepool_gc])

/-- The route pool after the sweep, written without the loop. -/
def od_routepool_swept (pool : od_routepool_t) : od_routepool_t :=
  if od_expire_pending pool.list = 0 then pool
  else
    { list := (pool.list.map od_route_reaped).filter (fun r => !od_route_is_unused r),
      count := pool.count - ((pool.list.length : Int) -
        (((pool.list.map od_route_reaped).filter (fun r => !od_route_is_unused r)).length : Int)) }

/-- What one tick makes of a route that survives it. -/
def od_route_step (route : od_route_t) : od_route_t :=
  od_route_reaped (od_route_aged route)

/-- The invariants the proofs rely on, for every route of a pool. -/
def od_pool_wf (pool : od_routepool_t) : Prop :=
  ∀ r ∈ pool.list, od_idle_wf r ∧ od_counters_wf r

instance (pool : od_routepool_t) : Decidable (od_pool_wf pool) := by
  unfold od_pool_wf; infer_instance

/-! ## Aging pass -/

theorem od_store_other (l : List od_server_t) (k : Nat) (v : od_server_t)
    (h : ∀ d ∈ l, d.id ≠ k) :
    l.map (fun x => if x.id = k then v else x) = l := by
  induction l with
  | nil => rfl
  | cons a l ih =>
    have ha : a.id ≠ k := h a (List.mem_cons_self _ _)
    have hl : ∀ d ∈ l, d.id ≠ k := fun d hd => h d (List.mem_cons_of_mem _ hd)
    simp [ha, ih hl]

theorem od_unlink_other (l : List od_server_t) (k : Nat)
    (h : ∀ d ∈ l, d.id ≠ k) :
    l.filter (fun x => x.id != k) = l := by
  induction l with
  | nil => rfl
  | cons a l ih =>
    have ha : a.id ≠ k := h a (List.mem_cons_self _ _)
    have hl : ∀ d ∈ l, d.id ≠ k := fun d hd => h d (List.mem_cons_of_mem _ hd)
    simp [ha, ih hl]

theorem od_serverpool_foreach_loop_expire_mark (rest : List od_server_t) :
    ∀ (done : List od_server_t) (route : od_route_t),
      route.scheme.pool_ttl ≠ 0 →
      (∀ s ∈ rest, s.state = OD_SIDLE) →
      (rest.map (fun s => s.id)).Nodup →
      (∀ d ∈ done, ∀ s ∈ rest, d.id ≠ s.id) →
      route.server_pool.idle = done ++ rest →
      od_serverpool_foreach_loop od_expire_mark rest route =
        ({ route with server_pool :=
            { route.server_pool with
              idle := done ++ od_aged_keep route.scheme.pool_ttl rest,
              expire := route.server_pool.expire ++ od_aged_move route.scheme.pool_ttl rest,
              count_idle := route.server_pool.count_idle -
                (od_aged_move route.scheme.pool_ttl rest).length,
              count_expire := route.server_pool.count_expire +
                (od_aged_move route.scheme.pool_ttl rest).length } }, none) := by
  induction rest with
  | nil =>
    intro done route _ _ _ _ hidle
    obtain ⟨id, scheme, ⟨a, c, i, e, cl, ca, cc, ci, ce, ccl⟩, cp⟩ := route
    simp only at hidle
    simp [od_serverpool_foreach_loop, od_aged_keep, od_aged_move, hidle]
  | cons s rest ih =>
    intro done route httl hst hnd hdis hidle
    obtain ⟨id, scheme, ⟨a, c, i, e, cl, ca, cc, ci, ce, ccl⟩, cp⟩ := route
    simp only at hidle httl
    subst hidle
    have hs : s.state = OD_SIDLE := hst s (List.mem_cons_self _ _)
    have hst1 : ∀ x ∈ rest, x.state = OD_SIDLE := fun x hx => hst x (List.mem_cons_of_mem _ hx)
    have hnd1 : (rest.map (fun x => x.id)).Nodup := (List.nodup_cons.mp hnd).2
    have hrs : ∀ x ∈ rest, x.id ≠ s.id := by
      intro x hx heq
      have hmem : x.id ∈ rest.map (fun x => x.id) := List.mem_map_of_mem (fun x => x.id) hx
      rw [heq] at hmem
      exact (List.nodup_cons.mp hnd).1 hmem
    have hds : ∀ d ∈ done, d.id ≠ s.id := fun d hd => hdis d hd s (List.mem_cons_self _ _)
    have hdis1 : ∀ d ∈ done, ∀ x ∈ rest, d.id ≠ x.id :=
      fun d hd x hx => hdis d hd x (List.mem_cons_of_mem _ hx)
    have e1 : ∀ v, done.map (fun x => if x.id = s.id then v else x) = done :=
      fun v => od_store_other done s.id v hds
    have e2 : ∀ v, rest.map (fun x => if x.id = s.id then v else x) = rest :=
      fun v => od_store_other rest s.id v hrs
    by_cases hlt : s.idle_time < scheme.pool_ttl
    · have hstep : od_expire_mark
          ⟨id, scheme, ⟨a, c, done ++ s :: rest, e, cl, ca, cc, ci, ce, ccl⟩, cp⟩ s =
          (⟨id, scheme, ⟨a, c, (done ++ [{ s with idle_time := s.idle_time + 1 }]) ++ rest,
            e, cl, ca, cc, ci, ce, ccl⟩, cp⟩, 0) := by
        simp [od_expire_mark, httl, hlt, od_serverpool_store, hs, e1, e2]
      rw [od_serverpool_foreach_loop, hstep]
      simp only [ne_eq, not_true_eq_false, if_false]
      rw [ih (done ++ [{ s with idle_time := s.idle_time + 1 }]) _ httl hst1 hnd1 _ rfl]
      · simp [od_aged_keep, od_aged_move, hlt]
      · intro d hd x hx
        rcases List.mem_append.mp hd with hd | hd
        · exact hdis1 d hd x hx
        · simp only [List.mem_singleton] at hd
          subst hd
          exact fun h => hrs x hx h.symm
    · have hstep : od_expire_mark
          ⟨id, scheme, ⟨a, c, done ++ s :: rest, e, cl, ca, cc, ci, ce, ccl⟩, cp⟩ s =
          (⟨id, scheme, ⟨a, c, done ++ rest, e ++ [{ s with state := OD_SEXPIRE }], cl,
            ca, cc, ci - 1, ce + 1, ccl⟩, cp⟩, 0) := by
        simp [od_expire_mark, httl, hlt, od_serverpool_set, od_serverpool_unlink,
          od_serverpool_link, hs, od_unlink_other done s.id hds, od_unlink_other rest s.id hrs]
      rw [od_serverpool_foreach_loop, hstep]
      simp only [ne_eq, not_true_eq_false, if_false]
      rw [ih done _ httl hst1 hnd1 hdis1 rfl]
      simp [od_aged_keep, od_aged_move, hlt]
      constructor <;> ring

theorem od_serverpool_foreach_loop_ttl_zero (rest : List od_server_t) (route : od_route_t)
    (httl : route.scheme.pool_ttl = 0) :
    od_serverpool_foreach_loop od_expire_mark rest route = (route, none) := by
  induction rest with
  | nil => rfl
  | cons s rest ih =>
    have hstep : od_expire_mark route s = (route, 0) := by simp [od_expire_mark, httl]
    rw [od_serverpool_foreach_loop, hstep]
    simpa using ih

theorem od_serverpool_foreach_expire_mark (route : od_route_t) (hwf : od_idle_wf route) :
    od_serverpool_foreach route OD_SIDLE od_expire_mark = (od_route_aged route, none) := by
  by_cases httl : route.scheme.pool_ttl = 0
  · simp [od_serverpool_foreach, od_route_aged, httl,
      od_serverpool_foreach_loop_ttl_zero _ route httl]
  · have h := od_serverpool_foreach_loop_expire_mark route.server_pool.idle [] route httl
      hwf.1 hwf.2 (by simp) (by simp)
    simp only [od_serverpool_foreach, od_serverpool_bucket, h, od_route_aged, httl, if_false,
      List.nil_append]

theorem od_routepool_foreach_loop_expire_mark (list : List od_route_t)
    (hwf : ∀ r ∈ list, od_idle_wf r) :
    od_routepool_foreach_loop OD_SIDLE od_expire_mark list = (list.map od_route_aged, none) := by
  induction list with
  | nil => rfl
  | cons r list ih =>
    have hr := od_serverpool_foreach_expire_mark r (hwf r (List.mem_cons_self _ _))
    have hl := ih (fun x hx => hwf x (List.mem_cons_of_mem _ hx))
    simp [od_routepool_foreach_loop, hr, hl]

/-! ## Sweep of expired connections -/

theorem od_expire_pending_eq (list : List od_route_t) :
    od_expire_pending list = (od_expire_servers list).length := by
  induction list with
  | nil => rfl
  | cons r list ih =>
    simp only [od_expire_pending, od_expire_servers, List.map_cons, List.sum_cons,
      List.flatMap_cons, List.length_append] at ih ⊢
    rw [ih]

theorem od_route_at_fixed (f : od_route_t → od_route_t) (hf : ∀ r, f r = r) (i : Nat)
    (list : List od_route_t) : od_route_at f i list = list := by
  induction list generalizing i with
  | nil => cases i <;> rfl
  | cons r list ih =>
    cases i with
    | zero => simp [od_route_at, hf]
    | succ i => simp [od_route_at, ih]

theorem od_serverpool_set_undef (pool : od_serverpool_t) (server : od_server_t)
    (h : server.state = OD_SUNDEF) : (od_serverpool_set pool server OD_SUNDEF).1 = pool := by
  simp [od_serverpool_set, od_serverpool_unlink, od_serverpool_link, h]

theorem od_routepool_next_loop_none (list : List od_route_t)
    (h : od_routepool_next_loop OD_SEXPIRE list = none) : od_expire_servers list = [] := by
  induction list with
  | nil => rfl
  | cons r list ih =>
    rw [od_routepool_next_loop] at h
    cases he : r.server_pool.expire with
    | nil =>
      simp only [od_serverpool_next, od_serverpool_bucket, he] at h
      cases hn : od_routepool_next_loop OD_SEXPIRE list with
      | none => simp [od_expire_servers, he] at ih ⊢; exact ih hn
      | some v => simp [hn] at h
    | cons s rest => simp [od_serverpool_next, od_serverpool_bucket, he] at h

theorem od_routepool_next_loop_some (list : List od_route_t) :
    ∀ (server : od_server_t) (i : Nat) (list1 : List od_route_t),
      od_routepool_next_loop OD_SEXPIRE list = some (server, i, list1) →
      ∃ s0, server = { s0 with state := OD_SUNDEF } ∧
        od_expire_servers list = s0 :: od_expire_servers list1 ∧
        list1.map od_route_reaped = list.map od_route_reaped ∧
        list1.length = list.length ∧
        ((∀ r ∈ list, od_counters_wf r) → ∀ r ∈ list1, od_counters_wf r) := by
  induction list with
  | nil => intro server i list1 h; simp [od_routepool_next_loop] at h
  | cons r list ih =>
    intro server i list1 h
    rw [od_routepool_next_loop] at h
    cases he : r.server_pool.expire with
    | nil =>
      simp only [od_serverpool_next, od_serverpool_bucket, he] at h
      cases hn : od_routepool_next_loop OD_SEXPIRE list with
      | none => simp [hn] at h
      | some v =>
        obtain ⟨s1, j, l1⟩ := v
        simp only [hn, Option.some.injEq, Prod.mk.injEq] at h
        obtain ⟨hs, _, hl⟩ := h
        subst hs hl
        obtain ⟨s0, h1, h2, h3, h4, h5⟩ := ih s1 j l1 hn
        refine ⟨s0, h1, ?_, ?_, ?_, ?_⟩
        · simpa [od_expire_servers, he] using h2
        · simp [h3]
        · simp [h4]
        · intro hwf x hx
          rcases List.mem_cons.mp hx with hx | hx
          · exact hx ▸ hwf r (List.mem_cons_self _ _)
          · exact h5 (fun y hy => hwf y (List.mem_cons_of_mem _ hy)) x hx
    | cons s rest =>
      simp only [od_serverpool_next, od_serverpool_bucket, he, od_serverpool_pop,
        Option.some.injEq, Prod.mk.injEq] at h
      obtain ⟨hs, _, hl⟩ := h
      subst hs hl
      refine ⟨s, rfl, ?_, ?_, ?_, ?_⟩
      · simp [od_expire_servers, he]
      · simp only [List.map_cons, List.cons.injEq, and_true]
        simp only [od_route_reaped, he, List.tail_cons, List.length_cons, Nat.cast_add,
          Nat.cast_one]
        congr 2
        ring
      · simp
      · intro hwf x hx
        rcases List.mem_cons.mp hx with hx | hx
        · subst hx
          have hr := hwf r (List.mem_cons_self _ _)
          simp only [od_counters_wf, he, List.length_cons, Nat.cast_add, Nat.cast_one] at hr ⊢
          simp only [List.tail_cons]
          omega
        · exact hwf x (List.mem_cons_of_mem _ hx)

theorem od_unused_expire_nil (r : od_route_t) (hwf : od_counters_wf r)
    (hu : od_route_is_unused r = true) : r.server_pool.expire = [] := by
  simp only [od_route_is_unused, od_serverpool_total, Bool.and_eq_true, beq_iff_eq] at hu
  obtain ⟨h1, h2, h3, h4, h5⟩ := hwf
  have hlen : r.server_pool.expire.length = 0 := by omega
  exact List.length_eq_zero.mp hlen

theorem od_route_reaped_of_nil (r : od_route_t) (h : r.server_pool.expire = []) :
    od_route_reaped r = r := by
  obtain ⟨id, scheme, ⟨a, c, i, e, cl, ca, cc, ci, ce, ccl⟩, cp⟩ := r
  simp only at h
  subst h
  simp [od_route_reaped]

theorem od_reaped_of_servers_nil (list : List od_route_t) (h : od_expire_servers list = []) :
    list.map od_route_reaped = list := by
  induction list with
  | nil => rfl
  | cons r list ih =>
    simp only [od_expire_servers, List.flatMap_cons, List.append_eq_nil] at h
    simp only [List.map_cons, od_route_reaped_of_nil r h.1]
    rw [ih h.2]

theorem od_expire_servers_gc (list : List od_route_t) (hwf : ∀ r ∈ list, od_counters_wf r) :
    od_expire_servers (list.filter (fun r => !od_route_is_unused r)) =
      od_expire_servers list := by
  induction list with
  | nil => rfl
  | cons r list ih =>
    have hl := ih (fun x hx => hwf x (List.mem_cons_of_mem _ hx))
    by_cases hu : od_route_is_unused r = true
    · have he := od_unused_expire_nil r (hwf r (List.mem_cons_self _ _)) hu
      simp only [od_expire_servers, List.flatMap_cons] at hl ⊢
      simp [List.filter_cons, hu, he, hl]
    · simp only [od_expire_servers, List.flatMap_cons] at hl ⊢
      simp [List.filter_cons, hu, hl]

theorem od_gc_reaped_gc (list : List od_route_t) (hwf : ∀ r ∈ list, od_counters_wf r) :
    ((list.filter (fun r => !od_route_is_unused r)).map od_route_reaped).filter
        (fun r => !od_route_is_unused r) =
      (list.map od_route_reaped).filter (fun r => !od_route_is_unused r) := by
  induction list with
  | nil => rfl
  | cons r list ih =>
    have hl := ih (fun x hx => hwf x (List.mem_cons_of_mem _ hx))
    by_cases hu : od_route_is_unused r = true
    · have he := od_unused_expire_nil r (hwf r (List.mem_cons_self _ _)) hu
      simp [List.filter_cons, hu, od_route_reaped_of_nil r he, hl]
    · simp [List.filter_cons, hu, hl]

theorem od_periodic_reap_eq (terminate : od_server_t → Int) (s0 : od_server_t) (i : Nat)
    (pool : od_routepool_t) :
    od_periodic_reap terminate { s0 with state := OD_SUNDEF } i pool =
      (od_routepool_gc pool, od_reap_events terminate [s0]) := by
  have hfix : od_route_at (fun route => { route with server_pool :=
      (od_serverpool_set route.server_pool
        { id := s0.id, state := OD_SUNDEF, idle_time := 0, route := none, io := s0.io }
        OD_SUNDEF).1 }) i pool.list = pool.list :=
    od_route_at_fixed _ (fun r => by rw [od_serverpool_set_undef _ _ rfl]) i pool.list
  simp only [od_periodic_reap, hfix, od_reap_events, od_server_reaped, List.flatMap_cons,
    List.flatMap_nil, List.append_nil]

theorem od_reap_events_cons (terminate : od_server_t → Int) (s0 : od_server_t)
    (rest : List od_server_t) :
    od_reap_events terminate (s0 :: rest) =
      od_reap_events terminate [s0] ++ od_reap_events terminate rest := by
  simp [od_reap_events]

theorem od_periodic_sweep_eq (terminate : od_server_t → Int) (fuel : Nat) :
    ∀ (pool : od_routepool_t), (∀ r ∈ pool.list, od_counters_wf r) →
      od_expire_pending pool.list < fuel →
      od_periodic_sweep terminate fuel pool =
        some (od_routepool_swept pool,
          od_reap_events terminate (od_expire_servers pool.list)) := by
  induction fuel with
  | zero => intro pool _ h; omega
  | succ fuel ih =>
    intro pool hwf hfuel
    rw [od_periodic_sweep]
    cases hn : od_routepool_next_loop OD_SEXPIRE pool.list with
    | none =>
      have he := od_routepool_next_loop_none pool.list hn
      simp [od_routepool_next, hn, od_routepool_swept, od_expire_pending_eq, he, od_reap_events]
    | some v =>
      obtain ⟨server, i, list1⟩ := v
      obtain ⟨s0, hs, hexp, hmap, hlen, hwf1⟩ := od_routepool_next_loop_some pool.list _ _ _ hn
      subst hs
      have hwf1 := hwf1 hwf
      simp only [od_routepool_next, hn, od_periodic_reap_eq]
      have hgwf : ∀ r ∈ (od_routepool_gc { pool with list := list1 }).list,
          od_counters_wf r := by
        intro r hr
        simp only [od_routepool_gc, List.mem_filter] at hr
        exact hwf1 r hr.1
      have hgexp : od_expire_servers (od_routepool_gc { pool with list := list1 }).list =
          od_expire_servers list1 := od_expire_servers_gc list1 hwf1
      have hgfuel :
          od_expire_pending (od_routepool_gc { pool with list := list1 }).list < fuel := by
        rw [od_expire_pending_eq, hgexp]
        rw [od_expire_pending_eq, hexp] at hfuel
        simpa using hfuel
      rw [ih _ hgwf hgfuel, hgexp, hexp]
      have hpos : od_expire_pending pool.list ≠ 0 := by
        rw [od_expire_pending_eq, hexp]; simp
      simp only [Option.some.injEq, Prod.mk.injEq]
      refine ⟨?_, (od_reap_events_cons terminate s0 _).symm⟩
      have hF : ((list1.filter (fun r => !od_route_is_unused r)).map od_route_reaped).filter
          (fun r => !od_route_is_unused r) =
          (pool.list.map od_route_reaped).filter (fun r => !od_route_is_unused r) := by
        rw [od_gc_reaped_gc list1 hwf1, hmap]
      by_cases hz : od_expire_pending (od_routepool_gc { pool with list := list1 }).list = 0
      · have hnil : od_expire_servers (list1.filter (fun r => !od_route_is_unused r)) = [] := by
          rw [od_expire_pending_eq] at hz
          exact List.length_eq_zero.mp hz
        have hG : list1.filter (fun r => !od_route_is_unused r) =
            (pool.list.map od_route_reaped).filter (fun r => !od_route_is_unused r) := by
          rw [← hF, od_reaped_of_servers_nil _ hnil, List.filter_filter]
          simp
        simp only [od_routepool_swept, hz, hpos, if_true, if_false]
        simp only [od_routepool_gc, hG, hlen]
      · simp only [od_routepool_swept, hz, hpos, if_false]
        simp only [od_routepool_gc, hF, hlen, od_routepool_t.mk.injEq, true_and]
        ring

theorem od_expire_pending_gc_le (list : List od_route_t) :
    od_expire_pending (list.filter (fun r => !od_route_is_unused r)) ≤
      od_expire_pending list := by
  induction list with
  | nil => simp
  | cons r list ih =>
    by_cases hu : od_route_is_unused r = true
    · simp only [List.filter_cons, hu, Bool.not_true, Bool.false_eq_true, if_false]
      simp only [od_expire_pending, List.map_cons, List.sum_cons] at ih ⊢
      omega
    · have hu1 : od_route_is_unused r = false := by simpa using hu
      simp only [List.filter_cons, hu1, Bool.not_false, if_true]
      simp only [od_expire_pending, List.map_cons, List.sum_cons] at ih ⊢
      omega

theorem od_periodic_sweep_terminates (terminate : od_server_t → Int) (fuel : Nat) :
    ∀ (pool : od_routepool_t), od_expire_pending pool.list < fuel →
      ∃ result, od_periodic_sweep terminate fuel pool = some result := by
  induction fuel with
  | zero => intro pool h; omega
  | succ fuel ih =>
    intro pool hfuel
    rw [od_periodic_sweep]
    cases hn : od_routepool_next_loop OD_SEXPIRE pool.list with
    | none => exact ⟨(pool, []), by simp [od_routepool_next, hn]⟩
    | some v =>
      obtain ⟨server, i, list1⟩ := v
      obtain ⟨s0, hs, hexp, -, -, -⟩ := od_routepool_next_loop_some pool.list _ _ _ hn
      subst hs
      simp only [od_routepool_next, hn, od_periodic_reap_eq]
      have hle := od_expire_pending_gc_le list1
      have hlt : od_expire_pending (od_routepool_gc { pool with list := list1 }).list < fuel := by
        have h1 : od_expire_pending pool.list = od_expire_pending list1 + 1 := by
          rw [od_expire_pending_eq, od_expire_pending_eq, hexp]; simp
        simp only [od_routepool_gc]
        omega
      obtain ⟨result, hres⟩ := ih _ hlt
      exact ⟨(result.1, od_reap_events terminate [s0] ++ result.2), by rw [hres]⟩

theorem od_periodic_tick_total (log_statistics : Int) (terminate : od_server_t → Int)
    (st : od_periodic_state) :
    ∃ swept events, od_periodic_tick log_statistics terminate st =
      some ({ route_pool := swept,
              tick := (od_periodic_tick_stats log_statistics swept st.tick).1 },
            { sweep := events,
              stats := (od_periodic_tick_stats log_statistics swept st.tick).2 }) := by
  obtain ⟨result, hres⟩ := od_periodic_sweep_terminates terminate
    (od_expire_pending (od_routepool_foreach st.route_pool OD_SIDLE od_expire_mark).1.list + 1)
    (od_routepool_foreach st.route_pool OD_SIDLE od_expire_mark).1 (Nat.lt_succ_self _)
  exact ⟨result.1, result.2, by simp only [od_periodic_tick, hres]⟩

/-! ## Accept loop -/

theorem od_queued_clients_append (a b : List od_pooler_event) :
    od_queued_clients (a ++ b) = od_queued_clients a ++ od_queued_clients b := by
  induction a with
  | nil => rfl
  | cons e a ih => cases e <;> simp [od_queued_clients, ih]

theorem od_closed_ios_append (a b : List od_pooler_event) :
    od_closed_ios (a ++ b) = od_closed_ios a ++ od_closed_ios b := by
  induction a with
  | nil => rfl
  | cons e a ih => cases e <;> simp [od_closed_ios, ih]

theorem od_freed_ios_append (a b : List od_pooler_event) :
    od_freed_ios (a ++ b) = od_freed_ios a ++ od_freed_ios b := by
  induction a with
  | nil => rfl
  | cons e a ih => cases e <;> simp [od_freed_ios, ih]

theorem od_pooler_set_options_quiet (scheme : od_scheme_t) (io : Nat) :
    od_queued_clients (od_pooler_set_options scheme io) = [] ∧
    od_closed_ios (od_pooler_set_options scheme io) = [] ∧
    od_freed_ios (od_pooler_set_options scheme io) = [] := by
  by_cases hk : scheme.keepalive > 0 <;>
    simp [od_pooler_set_options, hk, od_queued_clients, od_closed_ios, od_freed_ios]

theorem od_pooler_accept_failed (scheme : od_scheme_t) (pooler : od_pooler_t)
    (o : od_accept_outcome) (h : od_accept_failed o) :
    (od_pooler_accept scheme pooler o).1 = pooler ∧
    od_queued_clients (od_pooler_accept scheme pooler o).2 = [] ∧
    od_closed_ios (od_pooler_accept scheme pooler o).2 =
      (if o.accept_rc < 0 then [] else [o.client_io]) ∧
    od_freed_ios (od_pooler_accept scheme pooler o).2 =
      (if o.accept_rc < 0 then [] else [o.client_io]) := by
  obtain ⟨hq, hc, hf⟩ := od_pooler_set_options_quiet scheme o.client_io
  unfold od_pooler_accept
  by_cases h1 : o.accept_rc < 0
  · simp [h1, od_queued_clients, od_closed_ios, od_freed_ios]
  · by_cases h2 : o.readahead_rc = -1
    · by_cases hk : 0 < scheme.keepalive <;>
        simp [hk, od_pooler_set_options, h1, h2, od_queued_clients_append, od_closed_ios_append,
          od_freed_ios_append, hq, hc, hf, od_queued_clients, od_closed_ios, od_freed_ios]
    · by_cases h3 : o.detach_rc = -1
      · by_cases hk : 0 < scheme.keepalive <;>
          simp [hk, od_pooler_set_options, h1, h2, h3, od_queued_clients_append,
            od_closed_ios_append, od_freed_ios_append, hq, hc, hf, od_queued_clients,
            od_closed_ios, od_freed_ios]
      · have h4 : o.client = none := by
          rcases h with h | h | h | h
          · exact absurd h h1
          · exact absurd h h2
          · exact absurd h h3
          · exact h
        by_cases hk : 0 < scheme.keepalive <;>
          simp [hk, od_pooler_set_options, h1, h2, h3, h4, od_queued_clients_append,
            od_closed_ios_append, od_freed_ios_append, hq, hc, hf, od_queued_clients,
            od_closed_ios, od_freed_ios]

theorem od_pooler_accept_ok (scheme : od_scheme_t) (pooler : od_pooler_t)
    (o : od_accept_outcome) (client : od_client_t)
    (h1 : 0 ≤ o.accept_rc) (h2 : o.readahead_rc ≠ -1) (h3 : o.detach_rc ≠ -1)
    (h4 : o.client = some client) :
    (od_pooler_accept scheme pooler o).1 =
      { pooler with client_seq := (pooler.client_seq + 1) % 2 ^ 64 } ∧
    od_queued_clients (od_pooler_accept scheme pooler o).2 =
      [{ client with id := pooler.client_seq, io := some o.client_io }] ∧
    od_closed_ios (od_pooler_accept scheme pooler o).2 = [] ∧
    od_freed_ios (od_pooler_accept scheme pooler o).2 = [] := by
  obtain ⟨hq, hc, hf⟩ := od_pooler_set_options_quiet scheme o.client_io
  have h1n : ¬ o.accept_rc < 0 := by omega
  unfold od_pooler_accept
  by_cases hk : 0 < scheme.keepalive <;>
    simp [hk, od_pooler_set_options, h1n, h2, h3, h4, od_queued_clients_append,
      od_closed_ios_append, od_freed_ios_append, hq, hc, hf, od_queued_clients, od_closed_ios,
      od_freed_ios]

theorem od_accept_ok_of_not_failed (o : od_accept_outcome) (h : ¬ od_accept_failed o) :
    0 ≤ o.accept_rc ∧ o.readahead_rc ≠ -1 ∧ o.detach_rc ≠ -1 ∧
      ∃ client, o.client = some client := by
  simp only [od_accept_failed, not_or, not_lt] at h
  obtain ⟨h1, h2, h3, h4⟩ := h
  exact ⟨h1, h2, h3, Option.ne_none_iff_exists'.mp h4⟩

theorem od_pooler_main_loop_ids (scheme : od_scheme_t) (accepts : List od_accept_outcome) :
    ∀ (pooler : od_pooler_t), pooler.client_seq < 2 ^ 64 →
      (od_queued_clients (od_pooler_main_loop scheme pooler accepts).2).map (fun c => c.id) =
        (List.range (od_queued_clients (od_pooler_main_loop scheme pooler accepts).2).length).map
          (fun k => (pooler.client_seq + k) % 2 ^ 64) := by
  induction accepts with
  | nil => intro pooler _; simp [od_pooler_main_loop, od_queued_clients]
  | cons o rest ih =>
    intro pooler hseq
    rw [od_pooler_main_loop]
    simp only [od_queued_clients_append, List.map_append, List.length_append]
    by_cases hf : od_accept_failed o
    · obtain ⟨hp, hq, -, -⟩ := od_pooler_accept_failed scheme pooler o hf
      rw [hp, hq]
      simpa using ih pooler hseq
    · obtain ⟨h1, h2, h3, client, h4⟩ := od_accept_ok_of_not_failed o hf
      obtain ⟨hp, hq, -, -⟩ := od_pooler_accept_ok scheme pooler o client h1 h2 h3 h4
      rw [hp, hq]
      have hlt : (pooler.client_seq + 1) % 2 ^ 64 < 2 ^ 64 := Nat.mod_lt _ (by norm_num)
      have ih1 := ih { pooler with client_seq := (pooler.client_seq + 1) % 2 ^ 64 } hlt
      rw [ih1]
      simp only [List.map_cons, List.map_nil, List.length_cons, List.length_nil,
        List.length_map, List.length_range, List.singleton_append, zero_add]
      rw [Nat.add_comm 1, List.range_succ_eq_map]
      simp only [List.map_cons, List.map_map, Nat.add_zero, Nat.mod_eq_of_lt hseq,
        List.cons.injEq, true_and]
      apply List.map_congr_left
      intro k _
      simp only [Function.comp, Nat.succ_eq_add_one]
      rw [Nat.mod_add_mod]
      congr 1
      omega

theorem od_pooler_main_loop_cons (scheme : od_scheme_t) (pooler : od_pooler_t)
    (o : od_accept_outcome) (rest : List od_accept_outcome) (h : od_accept_failed o) :
    od_pooler_main_loop scheme pooler (o :: rest) =
      ((od_pooler_main_loop scheme pooler rest).1,
       (od_pooler_accept scheme pooler o).2 ++ (od_pooler_main_loop scheme pooler rest).2) := by
  rw [od_pooler_main_loop, (od_pooler_accept_failed scheme pooler o h).1]

theorem od_pooler_main_loop_failed (scheme : od_scheme_t) (pooler : od_pooler_t)
    (fails rest : List od_accept_outcome) (h : ∀ x ∈ fails, od_accept_failed x) :
    (od_pooler_main_loop scheme pooler (fails ++ rest)).1 =
      (od_pooler_main_loop scheme pooler rest).1 ∧
    od_queued_clients (od_pooler_main_loop scheme pooler (fails ++ rest)).2 =
      od_queued_clients (od_pooler_main_loop scheme pooler rest).2 := by
  induction fails with
  | nil => simp
  | cons o fails ih =>
    have ho := h o (List.mem_cons_self _ _)
    have ih1 := ih (fun x hx => h x (List.mem_cons_of_mem _ hx))
    rw [List.cons_append, od_pooler_main_loop_cons scheme pooler o _ ho]
    simp only [od_queued_clients_append, (od_pooler_accept_failed scheme pooler o ho).2.1,
      List.nil_append]
    exact ih1

/-! ## Claims on the accept loop -/

/-- C6. Client sequence numbers are strictly monotonic: in a run of
`od_pooler_main` on a pooler set up by `od_pooler_init` that enqueues fewer
than 2^64 clients, of any two clients put on the task queue the one put later
carries the strictly greater id, whatever the passes in between did. -/
theorem od_client_seq_strictly_monotonic (scheme : od_scheme_t) (pooler : od_pooler_t)
    (listen : od_listen_outcome) (accepts : List od_accept_outcome)
    (hfew : (od_queued_clients
      (od_pooler_main scheme (od_pooler_init pooler) listen accepts).2).length < 2 ^ 64) :
    List.Pairwise (fun a b : od_client_t => a.id < b.id)
      (od_queued_clients (od_pooler_main scheme (od_pooler_init pooler) listen accepts).2) := by
  have key : ∀ p : od_pooler_t, p.client_seq = 0 →
      (od_queued_clients (od_pooler_main_loop scheme p accepts).2).length < 2 ^ 64 →
      List.Pairwise (fun a b : od_client_t => a.id < b.id)
        (od_queued_clients (od_pooler_main_loop scheme p accepts).2) := by
    intro p hp hn
    have hids := od_pooler_main_loop_ids scheme accepts p (by rw [hp]; norm_num)
    have hrange :
        (List.range (od_queued_clients (od_pooler_main_loop scheme p accepts).2).length).map
        (fun k => (p.client_seq + k) % 2 ^ 64) =
        List.range (od_queued_clients (od_pooler_main_loop scheme p accepts).2).length := by
      conv_rhs => rw [← List.map_id (List.range _)]
      apply List.map_congr_left
      intro k hk
      rw [hp, Nat.zero_add, id]
      exact Nat.mod_eq_of_lt (lt_trans (List.mem_range.mp hk) hn)
    rw [hrange] at hids
    have hpw := List.pairwise_lt_range
      (od_queued_clients (od_pooler_main_loop scheme p accepts).2).length
    rw [← hids] at hpw
    exact (List.pairwise_map.mp hpw)
  unfold od_pooler_main at hfew ⊢
  by_cases h1 : (!scheme.tls_disabled && listen.tls.isNone) = true
  · simp [h1, od_queued_clients]
  · simp only [h1, Bool.false_eq_true, if_false] at hfew ⊢
    by_cases h2 : listen.getaddrinfo_rc < 0
    · simp [h2, od_queued_clients]
    · simp only [h2, if_false] at hfew ⊢
      cases h3 : listen.server with
      | none => simp [od_queued_clients]
      | some io =>
        simp only [h3] at hfew ⊢
        by_cases h4 : listen.bind_rc < 0
        · simp [h4, od_queued_clients]
        · simp only [h4, if_false, od_pooler_main_listen, od_queued_clients_append] at hfew ⊢
          simp only [od_queued_clients, List.nil_append] at hfew ⊢
          exact key _ rfl hfew

theorem od_client_seq_strictly_monotonic_witness :
    (od_queued_clients (od_pooler_main ex_scheme (od_pooler_init ex_pooler) ex_listen
      [ex_accept_ok 5, ex_accept_readahead_fails 6, ex_accept_ok 7]).2).length < 2 ^ 64 ∧
    List.Pairwise (fun a b : od_client_t => a.id < b.id)
      (od_queued_clients (od_pooler_main ex_scheme (od_pooler_init ex_pooler) ex_listen
        [ex_accept_ok 5, ex_accept_readahead_fails 6, ex_accept_ok 7]).2) :=
  ⟨by decide, od_client_seq_strictly_monotonic ex_scheme ex_pooler ex_listen
    [ex_accept_ok 5, ex_accept_readahead_fails 6, ex_accept_ok 7] (by decide)⟩

/-- C7. Accept isolation: a pass of the accept loop in which `machine_accept`,
`machine_set_readahead`, `machine_io_detach` or `od_client_allocate` fails
leaves the pooler as it was, enqueues nothing, closes and then frees the
accepted handle when there is one (and closes nothing when accept failed), and
the loop goes on with the remaining connections; after any number of such
passes, the next connection whose steps all succeed enqueues exactly one
`CLIENT_NEW` whose client carries that connection's handle. -/
theorem od_pooler_accept_isolation (scheme : od_scheme_t) (pooler : od_pooler_t)
    (o next : od_accept_outcome) (fails rest : List od_accept_outcome) (client : od_client_t)
    (ho : od_accept_failed o) (hfails : ∀ x ∈ fails, od_accept_failed x)
    (hnext : 0 ≤ next.accept_rc ∧ next.readahead_rc ≠ -1 ∧ next.detach_rc ≠ -1 ∧
      next.client = some client) :
    (od_pooler_accept scheme pooler o).1 = pooler ∧
    od_queued_clients (od_pooler_accept scheme pooler o).2 = [] ∧
    od_closed_ios (od_pooler_accept scheme pooler o).2 =
      (if o.accept_rc < 0 then [] else [o.client_io]) ∧
    od_freed_ios (od_pooler_accept scheme pooler o).2 =
      (if o.accept_rc < 0 then [] else [o.client_io]) ∧
    (0 ≤ o.accept_rc → ∃ before, (od_pooler_accept scheme pooler o).2 =
      before ++ [od_pooler_event.close o.client_io, od_pooler_event.io_free o.client_io]) ∧
    od_pooler_main_loop scheme pooler (o :: rest) =
      ((od_pooler_main_loop scheme pooler rest).1,
       (od_pooler_accept scheme pooler o).2 ++ (od_pooler_main_loop scheme pooler rest).2) ∧
    od_queued_clients (od_pooler_main_loop scheme pooler (o :: (fails ++ [next]))).2 =
      [{ client with id := pooler.client_seq, io := some next.client_io }] ∧
    od_queued_clients (od_pooler_main_loop scheme pooler (o :: (fails ++ next :: rest))).2 =
      { client with id := pooler.client_seq, io := some next.client_io } ::
        od_queued_clients (od_pooler_main_loop scheme
          (od_pooler_accept scheme pooler next).1 rest).2 := by
  obtain ⟨h1, h2, h3, h4⟩ := od_pooler_accept_failed scheme pooler o ho
  obtain ⟨n1, n2, n3, n4⟩ := hnext
  obtain ⟨k1, k2, -, -⟩ := od_pooler_accept_ok scheme pooler next client n1 n2 n3 n4
  have hall : ∀ x ∈ o :: fails, od_accept_failed x := by
    intro x hx
    rcases List.mem_cons.mp hx with hx | hx
    · exact hx ▸ ho
    · exact hfails x hx
  refine ⟨h1, h2, h3, h4, ?_, od_pooler_main_loop_cons scheme pooler o rest ho, ?_, ?_⟩
  · intro hacc
    have hn : ¬ o.accept_rc < 0 := by omega
    unfold od_pooler_accept
    by_cases hr : o.readahead_rc = -1
    · refine ⟨od_pooler_set_options scheme o.client_io ++
        [od_pooler_event.error "failed to set client readahead"], ?_⟩
      simp [hn, hr]
    · by_cases hd : o.detach_rc = -1
      · refine ⟨od_pooler_set_options scheme o.client_io ++
          [od_pooler_event.io_detach o.client_io,
           od_pooler_event.error "failed to transfer client io"], ?_⟩
        simp [hn, hr, hd]
      · have hc : o.client = none := by
          rcases ho with h | h | h | h
          · exact absurd h hn
          · exact absurd h hr
          · exact absurd h hd
          · exact h
        refine ⟨od_pooler_set_options scheme o.client_io ++
          [od_pooler_event.io_detach o.client_io,
           od_pooler_event.error "failed to allocate client object"], ?_⟩
        simp [hn, hr, hd, hc]
  · have h := (od_pooler_main_loop_failed scheme pooler (o :: fails) [next] hall).2
    rw [List.cons_append] at h
    rw [h, od_pooler_main_loop]
    simp [od_queued_clients_append, k2, od_pooler_main_loop, od_queued_clients]
  · have h := (od_pooler_main_loop_failed scheme pooler (o :: fails) (next :: rest) hall).2
    rw [List.cons_append] at h
    rw [h, od_pooler_main_loop]
    simp [od_queued_clients_append, k2]

theorem od_pooler_accept_isolation_witness :
    od_accept_failed (ex_accept_readahead_fails 6) ∧
    (∀ x ∈ ([] : List od_accept_outcome), od_accept_failed x) ∧
    (0 ≤ (ex_accept_ok 7).accept_rc ∧ (ex_accept_ok 7).readahead_rc ≠ -1 ∧
      (ex_accept_ok 7).detach_rc ≠ -1 ∧
      (ex_accept_ok 7).client = some { id := 0, io := none }) ∧
    od_closed_ios (od_pooler_accept ex_scheme ex_pooler (ex_accept_readahead_fails 6)).2 = [6] ∧
    od_queued_clients (od_pooler_main_loop ex_scheme ex_pooler
      [ex_accept_readahead_fails 6, ex_accept_ok 7]).2 = [{ id := 0, io := some 7 }] :=
  ⟨by decide, by decide, by decide,
   (od_pooler_accept_isolation ex_scheme ex_pooler (ex_accept_readahead_fails 6)
      (ex_accept_ok 7) [] [] { id := 0, io := none } (by decide) (by decide) (by decide)).2.2.1,
   (od_pooler_accept_isolation ex_scheme ex_pooler (ex_accept_readahead_fails 6)
      (ex_accept_ok 7) [] [] { id := 0, io := none } (by decide) (by decide)
      (by decide)).2.2.2.2.2.2.1⟩

/-- C8, as stated, fails: on a connection where `machine_set_nodelay` and
`machine_set_keepalive` both fail and the other steps succeed, the handle is
neither closed nor freed and its `CLIENT_NEW` message is enqueued. -/
theorem od_pooler_option_failure_counterexample :
    (ex_accept_options_fail 5).nodelay_rc = -1 ∧
    (ex_accept_options_fail 5).keepalive_rc = -1 ∧
    od_closed_ios (od_pooler_accept ex_scheme ex_pooler (ex_accept_options_fail 5)).2 = [] ∧
    od_freed_ios (od_pooler_accept ex_scheme ex_pooler (ex_accept_options_fail 5)).2 = [] ∧
    od_queued_clients (od_pooler_accept ex_scheme ex_pooler (ex_accept_options_fail 5)).2 =
      [{ id := 0, io := some 5 }] := by
  decide

/-- C8, amended. On an accepted connection a failure of `machine_set_nodelay`
or `machine_set_keepalive` changes nothing: the pass is the one of the same
connection with both calls succeeding. If read-ahead, detach and allocation
succeed, the handle is not closed and exactly one `CLIENT_NEW` is enqueued for
it; the handle is closed and freed and nothing is enqueued exactly when one of
those three fails. Keepalive is applied exactly when the configured interval is
positive, and the loop continues with the next connection in every case. -/
theorem od_pooler_option_failure_ignored (scheme : od_scheme_t) (pooler : od_pooler_t)
    (o : od_accept_outcome) (rest : List od_accept_outcome)
    (hacc : 0 ≤ o.accept_rc) (_hfail : o.nodelay_rc = -1 ∨ o.keepalive_rc = -1) :
    od_pooler_accept scheme pooler o =
      od_pooler_accept scheme pooler { o with nodelay_rc := 0, keepalive_rc := 0 } ∧
    (∀ client, o.readahead_rc ≠ -1 → o.detach_rc ≠ -1 → o.client = some client →
      od_queued_clients (od_pooler_accept scheme pooler o).2 =
        [{ client with id := pooler.client_seq, io := some o.client_io }] ∧
      od_closed_ios (od_pooler_accept scheme pooler o).2 = [] ∧
      od_freed_ios (od_pooler_accept scheme pooler o).2 = []) ∧
    (o.readahead_rc = -1 ∨ o.detach_rc = -1 ∨ o.client = none →
      od_queued_clients (od_pooler_accept scheme pooler o).2 = [] ∧
      od_closed_ios (od_pooler_accept scheme pooler o).2 = [o.client_io] ∧
      od_freed_ios (od_pooler_accept scheme pooler o).2 = [o.client_io]) ∧
    (od_pooler_event.set_keepalive o.client_io 1 scheme.keepalive ∈
      (od_pooler_accept scheme pooler o).2 ↔ 0 < scheme.keepalive) ∧
    od_pooler_main_loop scheme pooler (o :: rest) =
      ((od_pooler_main_loop scheme (od_pooler_accept scheme pooler o).1 rest).1,
       (od_pooler_accept scheme pooler o).2 ++
         (od_pooler_main_loop scheme (od_pooler_accept scheme pooler o).1 rest).2) := by
  have hn : ¬ o.accept_rc < 0 := by omega
  refine ⟨rfl, ?_, ?_, ?_, by rw [od_pooler_main_loop]⟩
  · intro client h2 h3 h4
    exact (od_pooler_accept_ok scheme pooler o client hacc h2 h3 h4).2
  · intro h
    have hf : od_accept_failed o := Or.inr h
    have := od_pooler_accept_failed scheme pooler o hf
    simp only [hn, if_false] at this
    exact this.2
  · unfold od_pooler_accept
    by_cases hk : 0 < scheme.keepalive
    · by_cases hr : o.readahead_rc = -1
      · simp [hn, hr, hk, od_pooler_set_options]
      · by_cases hd : o.detach_rc = -1
        · simp [hn, hr, hd, hk, od_pooler_set_options]
        · cases hc : o.client <;> simp [hn, hr, hd, hk, od_pooler_set_options]
    · by_cases hr : o.readahead_rc = -1
      · simp [hn, hr, hk, od_pooler_set_options]
      · by_cases hd : o.detach_rc = -1
        · simp [hn, hr, hd, hk, od_pooler_set_options]
        · cases hc : o.client <;> simp [hn, hr, hd, hk, od_pooler_set_options]

theorem od_pooler_option_failure_ignored_witness :
    0 ≤ (ex_accept_options_fail 5).accept_rc ∧
    ((ex_accept_options_fail 5).nodelay_rc = -1 ∨
      (ex_accept_options_fail 5).keepalive_rc = -1) ∧
    od_pooler_accept ex_scheme ex_pooler (ex_accept_options_fail 5) =
      od_pooler_accept ex_scheme ex_pooler
        { ex_accept_options_fail 5 with nodelay_rc := 0, keepalive_rc := 0 } :=
  ⟨by decide, by decide,
   (od_pooler_option_failure_ignored ex_scheme ex_pooler (ex_accept_options_fail 5) []
     (by decide) (by decide)).1⟩

/-! ## One tick on a well-formed pool -/

theorem od_filter_length_split (p : od_server_t → Bool) (l : List od_server_t) :
    (l.filter p).length + (l.filter (fun s => !p s)).length = l.length := by
  induction l with
  | nil => rfl
  | cons a l ih =>
    cases h : p a <;> simp [List.filter_cons, h] <;> omega

theorem od_aged_lengths (ttl : Int) (idle : List od_server_t) :
    (od_aged_keep ttl idle).length + (od_aged_move ttl idle).length = idle.length := by
  simp only [od_aged_keep, od_aged_move, List.length_map]
  exact od_filter_length_split (fun s => decide (s.idle_time < ttl)) idle

theorem od_route_aged_counters (r : od_route_t) (h : od_counters_wf r) :
    od_counters_wf (od_route_aged r) := by
  unfold od_route_aged
  by_cases httl : r.scheme.pool_ttl = 0
  · simpa [httl] using h
  · obtain ⟨h1, h2, h3, h4, h5⟩ := h
    have hl := od_aged_lengths r.scheme.pool_ttl r.server_pool.idle
    simp only [httl, if_false, od_counters_wf, List.length_append, Nat.cast_add]
    refine ⟨h1, h2, ?_, ?_, h5⟩ <;> omega

theorem od_route_aged_idle_wf (r : od_route_t) (h : od_idle_wf r) :
    od_idle_wf (od_route_aged r) := by
  unfold od_route_aged
  by_cases httl : r.scheme.pool_ttl = 0
  · simpa [httl] using h
  · obtain ⟨h1, h2⟩ := h
    simp only [httl, if_false, od_idle_wf, od_aged_keep, List.mem_map, List.mem_filter]
    constructor
    · rintro s ⟨x, ⟨hx, -⟩, rfl⟩
      exact h1 x hx
    · rw [List.map_map]
      exact h2.sublist (List.Sublist.map _ (List.filter_sublist _))

theorem od_route_reaped_counters (r : od_route_t) (h : od_counters_wf r) :
    od_counters_wf (od_route_reaped r) := by
  obtain ⟨h1, h2, h3, h4, h5⟩ := h
  simp only [od_route_reaped, od_counters_wf, List.length_nil, Nat.cast_zero]
  exact ⟨h1, h2, h3, by omega, h5⟩

theorem od_route_step_wf (r : od_route_t) (h : od_idle_wf r ∧ od_counters_wf r) :
    od_idle_wf (od_route_step r) ∧ od_counters_wf (od_route_step r) :=
  ⟨od_route_aged_idle_wf r h.1, od_route_reaped_counters _ (od_route_aged_counters r h.2)⟩

theorem od_route_step_id (r : od_route_t) : (od_route_step r).id = r.id := by
  unfold od_route_step od_route_reaped od_route_aged
  by_cases httl : r.scheme.pool_ttl = 0 <;> simp [httl]

theorem od_route_step_scheme (r : od_route_t) : (od_route_step r).scheme = r.scheme := by
  unfold od_route_step od_route_reaped od_route_aged
  by_cases httl : r.scheme.pool_ttl = 0 <;> simp [httl]

theorem od_route_step_client_pool (r : od_route_t) :
    (od_route_step r).client_pool = r.client_pool := by
  unfold od_route_step od_route_reaped od_route_aged
  by_cases httl : r.scheme.pool_ttl = 0 <;> simp [httl]

theorem od_expire_nil_of_servers_nil (list : List od_route_t)
    (h : od_expire_servers list = []) : ∀ r ∈ list, r.server_pool.expire = [] := by
  intro r hr
  simp only [od_expire_servers, List.flatMap_eq_nil_iff] at h
  exact h r hr

theorem od_routepool_swept_mem (pool : od_routepool_t) (r1 : od_route_t)
    (h : r1 ∈ (od_routepool_swept pool).list) :
    ∃ r ∈ pool.list, r1 = od_route_reaped r := by
  unfold od_routepool_swept at h
  by_cases hz : od_expire_pending pool.list = 0
  · simp only [hz, if_true] at h
    rw [od_expire_pending_eq] at hz
    have hnil := od_expire_nil_of_servers_nil pool.list (List.length_eq_zero.mp hz) r1 h
    exact ⟨r1, h, (od_route_reaped_of_nil r1 hnil).symm⟩
  · simp only [hz, if_false, List.mem_filter, List.mem_map] at h
    obtain ⟨⟨r, hr, rfl⟩, -⟩ := h
    exact ⟨r, hr, rfl⟩

theorem od_routepool_swept_keeps (pool : od_routepool_t) (r : od_route_t) (hr : r ∈ pool.list)
    (hu : od_route_is_unused (od_route_reaped r) = false) :
    od_route_reaped r ∈ (od_routepool_swept pool).list := by
  unfold od_routepool_swept
  by_cases hz : od_expire_pending pool.list = 0
  · simp only [hz, if_true]
    rw [od_expire_pending_eq] at hz
    have hnil := od_expire_nil_of_servers_nil pool.list (List.length_eq_zero.mp hz) r hr
    rw [od_route_reaped_of_nil r hnil]
    exact hr
  · simp only [hz, if_false, List.mem_filter, List.mem_map]
    exact ⟨⟨r, hr, rfl⟩, by simp [hu]⟩

theorem od_routepool_swept_ids (pool : od_routepool_t) :
    ((od_routepool_swept pool).list.map (fun r => r.id)).Sublist
      (pool.list.map (fun r => r.id)) := by
  unfold od_routepool_swept
  by_cases hz : od_expire_pending pool.list = 0
  · simp [hz]
  · simp only [hz, if_false]
    have hids : pool.list.map (fun r => r.id) =
        (pool.list.map od_route_reaped).map (fun r => r.id) := by
      rw [List.map_map]; rfl
    rw [hids]
    exact List.Sublist.map _ (List.filter_sublist _)

theorem od_periodic_tick_eq (log_statistics : Int) (terminate : od_server_t → Int)
    (st : od_periodic_state) (hwf : od_pool_wf st.route_pool) :
    od_periodic_tick log_statistics terminate st =
      some ({ route_pool := od_routepool_swept
                { st.route_pool with list := st.route_pool.list.map od_route_aged },
              tick := (od_periodic_tick_stats log_statistics
                (od_routepool_swept
                  { st.route_pool with list := st.route_pool.list.map od_route_aged })
                st.tick).1 },
            { sweep := od_reap_events terminate
                (od_expire_servers (st.route_pool.list.map od_route_aged)),
              stats := (od_periodic_tick_stats log_statistics
                (od_routepool_swept
                  { st.route_pool with list := st.route_pool.list.map od_route_aged })
                st.tick).2 }) := by
  have haged : (od_routepool_foreach st.route_pool OD_SIDLE od_expire_mark).1 =
      { st.route_pool with list := st.route_pool.list.map od_route_aged } := by
    simp only [od_routepool_foreach,
      od_routepool_foreach_loop_expire_mark st.route_pool.list (fun r hr => (hwf r hr).1)]
  have hcnt : ∀ r ∈ st.route_pool.list.map od_route_aged, od_counters_wf r := by
    intro r hr
    obtain ⟨x, hx, rfl⟩ := List.mem_map.mp hr
    exact od_route_aged_counters x (hwf x hx).2
  have hsweep := od_periodic_sweep_eq terminate
    (od_expire_pending (st.route_pool.list.map od_route_aged) + 1)
    { st.route_pool with list := st.route_pool.list.map od_route_aged } hcnt (Nat.lt_succ_self _)
  simp only [od_periodic_tick, haged, hsweep]

theorem od_route_aged_id (r : od_route_t) : (od_route_aged r).id = r.id := by
  unfold od_route_aged
  by_cases httl : r.scheme.pool_ttl = 0 <;> simp [httl]

theorem od_periodic_tick_spec (log_statistics : Int) (terminate : od_server_t → Int)
    (st : od_periodic_state) (hwf : od_pool_wf st.route_pool) :
    ∃ st1 out, od_periodic_tick log_statistics terminate st = some (st1, out) ∧
      od_pool_wf st1.route_pool ∧
      (∀ r1 ∈ st1.route_pool.list, ∃ r ∈ st.route_pool.list, r1 = od_route_step r) ∧
      (∀ r ∈ st.route_pool.list, od_route_is_unused (od_route_step r) = false →
        od_route_step r ∈ st1.route_pool.list) ∧
      (st1.route_pool.list.map (fun r => r.id)).Sublist
        (st.route_pool.list.map (fun r => r.id)) ∧
      out.sweep = od_reap_events terminate
        (od_expire_servers (st.route_pool.list.map od_route_aged)) ∧
      (od_expire_servers (st.route_pool.list.map od_route_aged) ≠ [] →
        ∀ r1 ∈ st1.route_pool.list, od_route_is_unused r1 = false) := by
  refine ⟨_, _, od_periodic_tick_eq log_statistics terminate st hwf, ?_, ?_, ?_, ?_, rfl, ?_⟩
  rotate_right
  · intro hne r1 hr1
    have hz : od_expire_pending (st.route_pool.list.map od_route_aged) ≠ 0 := by
      rw [od_expire_pending_eq]
      exact fun h => hne (List.length_eq_zero.mp h)
    simp only [od_routepool_swept, hz, if_false, List.mem_filter] at hr1
    simpa using hr1.2
  · intro r1 hr1
    obtain ⟨ra, hra, rfl⟩ := od_routepool_swept_mem _ r1 hr1
    obtain ⟨r, hr, rfl⟩ := List.mem_map.mp hra
    exact od_route_step_wf r (hwf r hr)
  · intro r1 hr1
    obtain ⟨ra, hra, rfl⟩ := od_routepool_swept_mem _ r1 hr1
    obtain ⟨r, hr, rfl⟩ := List.mem_map.mp hra
    exact ⟨r, hr, rfl⟩
  · intro r hr hu
    exact od_routepool_swept_keeps _ (od_route_aged r) (List.mem_map_of_mem _ hr) hu
  · have h := od_routepool_swept_ids
      { st.route_pool with list := st.route_pool.list.map od_route_aged }
    have hids : (st.route_pool.list.map od_route_aged).map (fun r => r.id) =
        st.route_pool.list.map (fun r => r.id) := by
      rw [List.map_map]
      apply List.map_congr_left
      intro r _
      exact od_route_aged_id r
    rw [← hids]
    exact h

theorem od_periodic_run_spec (log_statistics : Int) (terminate : od_server_t → Int) (n : Nat)
    (st : od_periodic_state) (hwf : od_pool_wf st.route_pool) :
    ∃ st1 outs, od_periodic log_statistics terminate n st = some (st1, outs) ∧
      od_pool_wf st1.route_pool ∧
      (∀ r1 ∈ st1.route_pool.list, ∃ r ∈ st.route_pool.list, r1 = od_route_step^[n] r) ∧
      (∀ r ∈ st.route_pool.list,
        (∀ k, 1 ≤ k → k ≤ n → od_route_is_unused (od_route_step^[k] r) = false) →
        od_route_step^[n] r ∈ st1.route_pool.list) ∧
      (st1.route_pool.list.map (fun r => r.id)).Sublist
        (st.route_pool.list.map (fun r => r.id)) := by
  induction n with
  | zero =>
    exact ⟨st, [], rfl, hwf, fun r1 hr1 => ⟨r1, hr1, rfl⟩, fun r hr _ => hr,
      List.Sublist.refl _⟩
  | succ n ih =>
    obtain ⟨st1, outs, hrun, hwf1, hmem, hkeep, hids⟩ := ih
    obtain ⟨st2, out, htick, hwf2, hmem2, hkeep2, hids2, -, -⟩ :=
      od_periodic_tick_spec log_statistics terminate st1 hwf1
    refine ⟨st2, outs ++ [out], by rw [od_periodic, hrun]; simp only [htick], hwf2,
      ?_, ?_, hids2.trans hids⟩
    · intro r2 hr2
      obtain ⟨r1, hr1, rfl⟩ := hmem2 r2 hr2
      obtain ⟨r, hr, rfl⟩ := hmem r1 hr1
      exact ⟨r, hr, (Function.iterate_succ_apply' _ _ _).symm⟩
    · intro r hr hu
      rw [Function.iterate_succ_apply']
      apply hkeep2 _ (hkeep r hr (fun k h1 h2 => hu k h1 (by omega)))
      have h := hu (n + 1) (by omega) (le_refl _)
      rw [Function.iterate_succ_apply'] at h
      exact h

/-! ## What a tick does to the buckets of a route -/

theorem od_aged_keep_mem (ttl : Int) (idle : List od_server_t) (s : od_server_t)
    (hs : s ∈ idle) (hlt : s.idle_time < ttl) :
    { s with idle_time := s.idle_time + 1 } ∈ od_aged_keep ttl idle := by
  simp only [od_aged_keep, List.mem_map, List.mem_filter, decide_eq_true_eq]
  exact ⟨s, ⟨hs, hlt⟩, rfl⟩

theorem od_aged_keep_of_mem (ttl : Int) (idle : List od_server_t) (x : od_server_t)
    (hx : x ∈ od_aged_keep ttl idle) :
    ∃ y ∈ idle, y.idle_time < ttl ∧ x = { y with idle_time := y.idle_time + 1 } := by
  simp only [od_aged_keep, List.mem_map, List.mem_filter, decide_eq_true_eq] at hx
  obtain ⟨y, ⟨hy, hlt⟩, rfl⟩ := hx
  exact ⟨y, hy, hlt, rfl⟩

theorem od_aged_move_mem (ttl : Int) (idle : List od_server_t) (s : od_server_t)
    (hs : s ∈ idle) (hge : ttl ≤ s.idle_time) :
    { s with state := OD_SEXPIRE } ∈ od_aged_move ttl idle := by
  simp only [od_aged_move, List.mem_map, List.mem_filter, Bool.not_eq_true',
    decide_eq_false_iff_not, not_lt]
  exact ⟨s, ⟨hs, hge⟩, rfl⟩

theorem od_route_aged_expire_mem (r : od_route_t) (s : od_server_t)
    (httl : r.scheme.pool_ttl ≠ 0) (hs : s ∈ r.server_pool.idle)
    (hge : r.scheme.pool_ttl ≤ s.idle_time) :
    { s with state := OD_SEXPIRE } ∈ (od_route_aged r).server_pool.expire := by
  simp only [od_route_aged, httl, if_false, List.mem_append]
  exact Or.inr (od_aged_move_mem _ _ s hs hge)

theorem od_route_aged_idle (r : od_route_t) :
    (od_route_aged r).server_pool.idle =
      if r.scheme.pool_ttl = 0 then r.server_pool.idle
      else od_aged_keep r.scheme.pool_ttl r.server_pool.idle := by
  unfold od_route_aged
  by_cases httl : r.scheme.pool_ttl = 0 <;> simp [httl]

theorem od_route_step_idle (r : od_route_t) :
    (od_route_step r).server_pool.idle =
      if r.scheme.pool_ttl = 0 then r.server_pool.idle
      else od_aged_keep r.scheme.pool_ttl r.server_pool.idle := by
  rw [← od_route_aged_idle]
  rfl

theorem od_route_step_expire (r : od_route_t) : (od_route_step r).server_pool.expire = [] := rfl

theorem od_route_step_others (r : od_route_t) :
    (od_route_step r).server_pool.active = r.server_pool.active ∧
    (od_route_step r).server_pool.connect = r.server_pool.connect ∧
    (od_route_step r).server_pool.close = r.server_pool.close := by
  unfold od_route_step od_route_reaped od_route_aged
  by_cases httl : r.scheme.pool_ttl = 0 <;> simp [httl]

theorem od_idle_same_id (r : od_route_t) (hwf : od_idle_wf r) (x y : od_server_t)
    (hx : x ∈ r.server_pool.idle) (hy : y ∈ r.server_pool.idle) (hid : x.id = y.id) : x = y :=
  List.inj_on_of_nodup_map hwf.2 hx hy hid

theorem od_route_same_id (list : List od_route_t) (hids : (list.map (fun r => r.id)).Nodup)
    (x y : od_route_t) (hx : x ∈ list) (hy : y ∈ list) (hid : x.id = y.id) : x = y :=
  List.inj_on_of_nodup_map hids hx hy hid

theorem od_route_used_of_idle (r : od_route_t) (hwf : od_counters_wf r) (s : od_server_t)
    (hs : s ∈ r.server_pool.idle) : od_route_is_unused r = false := by
  obtain ⟨h1, h2, h3, h4, h5⟩ := hwf
  have hpos : 0 < r.server_pool.idle.length := List.length_pos_of_mem hs
  have hne : od_serverpool_total r.server_pool ≠ 0 := by
    simp only [od_serverpool_total]
    omega
  simp [od_route_is_unused, hne]

theorem od_routepool_foreach_all (list : List od_route_t) :
    od_routepool_foreach_loop OD_SIDLE od_expire_mark list =
      (list.map (fun r => (od_serverpool_foreach r OD_SIDLE od_expire_mark).1), none) := by
  have hloop : ∀ (rest : List od_server_t) (route : od_route_t),
      (od_serverpool_foreach_loop od_expire_mark rest route).2 = none := by
    intro rest
    induction rest with
    | nil => intro route; rfl
    | cons s rest ih =>
      intro route
      have hrc : (od_expire_mark route s).2 = 0 := by
        unfold od_expire_mark
        by_cases h1 : route.scheme.pool_ttl = 0
        · simp [h1]
        · by_cases h2 : s.idle_time < route.scheme.pool_ttl <;> simp [h1, h2]
      rw [od_serverpool_foreach_loop]
      simp only [hrc, ne_eq, not_true_eq_false, if_false]
      exact ih _
  induction list with
  | nil => rfl
  | cons r list ih =>
    have hr : (od_serverpool_foreach r OD_SIDLE od_expire_mark).2 = none := hloop _ _
    rw [od_routepool_foreach_loop]
    simp only [hr, ih, List.map_cons]

theorem od_reap_events_servers (terminate : od_server_t → Int) (servers : List od_server_t) :
    (∀ s ∈ servers,
      od_periodic_event.debug_closing s.id s.idle_time ∈ od_reap_events terminate servers ∧
      od_periodic_event.backend_terminate (od_server_reaped s)
        (terminate (od_server_reaped s)) ∈ od_reap_events terminate servers ∧
      od_periodic_event.backend_close (od_server_reaped s) ∈
        od_reap_events terminate servers) ∧
    (∀ server, od_periodic_event.backend_close server ∈ od_reap_events terminate servers →
      ∃ s ∈ servers, server = od_server_reaped s) ∧
    (∀ server rc,
      od_periodic_event.backend_terminate server rc ∈ od_reap_events terminate servers →
      ∃ s ∈ servers, server = od_server_reaped s) := by
  refine ⟨?_, ?_, ?_⟩
  · intro s hs
    simp only [od_reap_events, List.mem_flatMap]
    exact ⟨⟨s, hs, by simp⟩, ⟨s, hs, by simp⟩, ⟨s, hs, by simp⟩⟩
  · intro server h
    simp only [od_reap_events, List.mem_flatMap] at h
    obtain ⟨s, hs, hmem⟩ := h
    simp at hmem
    exact ⟨s, hs, hmem⟩
  · intro server rc h
    simp only [od_reap_events, List.mem_flatMap] at h
    obtain ⟨s, hs, hmem⟩ := h
    simp at hmem
    exact ⟨s, hs, hmem.1⟩

/-! ## A route over several ticks -/

theorem od_route_step_iter_fields (r : od_route_t) (k : Nat) :
    (od_route_step^[k] r).id = r.id ∧ (od_route_step^[k] r).scheme = r.scheme ∧
    (od_route_step^[k] r).client_pool = r.client_pool ∧
    (od_route_step^[k] r).server_pool.active = r.server_pool.active ∧
    (od_route_step^[k] r).server_pool.connect = r.server_pool.connect ∧
    (od_route_step^[k] r).server_pool.close = r.server_pool.close := by
  induction k with
  | zero => simp
  | succ k ih =>
    obtain ⟨h1, h2, h3, h4, h5, h6⟩ := ih
    obtain ⟨g4, g5, g6⟩ := od_route_step_others (od_route_step^[k] r)
    rw [Function.iterate_succ_apply']
    exact ⟨(od_route_step_id _).trans h1, (od_route_step_scheme _).trans h2,
      (od_route_step_client_pool _).trans h3, g4.trans h4, g5.trans h5, g6.trans h6⟩

theorem od_route_step_iter_wf (r : od_route_t) (h : od_idle_wf r ∧ od_counters_wf r) (k : Nat) :
    od_idle_wf (od_route_step^[k] r) ∧ od_counters_wf (od_route_step^[k] r) := by
  induction k with
  | zero => exact h
  | succ k ih =>
    rw [Function.iterate_succ_apply']
    exact od_route_step_wf _ ih

theorem od_route_step_iter_disabled (r : od_route_t) (httl : r.scheme.pool_ttl = 0) (k : Nat) :
    (od_route_step^[k] r).server_pool.idle = r.server_pool.idle := by
  induction k with
  | zero => rfl
  | succ k ih =>
    rw [Function.iterate_succ_apply', od_route_step_idle,
      (od_route_step_iter_fields r k).2.1, if_pos httl, ih]

theorem od_route_step_iter_aging (r : od_route_t) (s : od_server_t) (T : Nat)
    (hT : r.scheme.pool_ttl = (T : Int)) (hpos : 0 < T) (hs : s ∈ r.server_pool.idle)
    (h0 : s.idle_time = 0) (k : Nat) (hk : k ≤ T) :
    { s with idle_time := (k : Int) } ∈ (od_route_step^[k] r).server_pool.idle := by
  induction k with
  | zero =>
    have hs0 : { s with idle_time := ((0 : Nat) : Int) } = s := by
      cases s
      simp only at h0
      subst h0
      rfl
    rw [hs0]
    exact hs
  | succ k ih =>
    have hmem := ih (by omega)
    have httl : (od_route_step^[k] r).scheme.pool_ttl = (T : Int) := by
      rw [(od_route_step_iter_fields r k).2.1, hT]
    have hne : ¬ (od_route_step^[k] r).scheme.pool_ttl = 0 := by
      rw [httl]; omega
    rw [Function.iterate_succ_apply', od_route_step_idle, if_neg hne, httl]
    have h := od_aged_keep_mem (T : Int) _ { s with idle_time := (k : Int) } hmem
      (by simp only; omega)
    simpa using h

theorem od_route_step_iter_lower (r : od_route_t) (httl : r.scheme.pool_ttl ≠ 0)
    (h : ∀ x ∈ r.server_pool.idle, 0 ≤ x.idle_time) (k : Nat) :
    ∀ x ∈ (od_route_step^[k] r).server_pool.idle, (k : Int) ≤ x.idle_time := by
  induction k with
  | zero => simpa using h
  | succ k ih =>
    intro x hx
    have hne : ¬ (od_route_step^[k] r).scheme.pool_ttl = 0 := by
      rw [(od_route_step_iter_fields r k).2.1]; exact httl
    rw [Function.iterate_succ_apply', od_route_step_idle, if_neg hne] at hx
    obtain ⟨y, hy, -, rfl⟩ := od_aged_keep_of_mem _ _ x hx
    have := ih y hy
    simp only [Nat.cast_add, Nat.cast_one]
    omega

theorem od_periodic_length (log_statistics : Int) (terminate : od_server_t → Int) (n : Nat)
    (st st1 : od_periodic_state) (outs : List od_periodic_output)
    (h : od_periodic log_statistics terminate n st = some (st1, outs)) : outs.length = n := by
  induction n generalizing st1 outs with
  | zero =>
    simp only [od_periodic, Option.some.injEq, Prod.mk.injEq] at h
    rw [← h.2]; rfl
  | succ n ih =>
    rw [od_periodic] at h
    cases hrun : od_periodic log_statistics terminate n st with
    | none => simp [hrun] at h
    | some v =>
      obtain ⟨st0, outs0⟩ := v
      cases htick : od_periodic_tick log_statistics terminate st0 with
      | none => simp [hrun, htick] at h
      | some w =>
        obtain ⟨st2, out⟩ := w
        simp only [hrun, htick, Option.some.injEq, Prod.mk.injEq] at h
        rw [← h.2, List.length_append, ih st0 outs0 hrun]
        rfl

/-! ## Statistics cadence -/

theorem od_periodic_tick_stats_step (N n : Nat) (hN : 0 < N) (pool : od_routepool_t) :
    od_periodic_tick_stats (N : Int) pool ((n % N : Nat) : Int) =
      ((((n + 1) % N : Nat) : Int),
       if N ∣ n + 1 then some (od_periodic_stats pool) else none) := by
  have hlt := Nat.mod_lt n hN
  have hpos : (N : Int) > 0 := by exact_mod_cast hN
  unfold od_periodic_tick_stats
  rw [if_pos hpos]
  rcases Nat.lt_or_ge (n % N + 1) N with h | h
  · have hmod : (n + 1) % N = n % N + 1 := by
      rw [← Nat.mod_add_mod, Nat.mod_eq_of_lt h]
    have hnd : ¬ N ∣ n + 1 := by
      rw [Nat.dvd_iff_mod_eq_zero, hmod]; omega
    have hc : ¬ (((n % N : Nat) : Int) + 1 ≥ (N : Int)) := by omega
    rw [if_neg hc, if_neg hnd, hmod]
    simp
  · have heq : n % N + 1 = N := by omega
    have hmod : (n + 1) % N = 0 := by
      rw [← Nat.mod_add_mod, heq, Nat.mod_self]
    have hd : N ∣ n + 1 := Nat.dvd_iff_mod_eq_zero.mpr hmod
    have hc : ((n % N : Nat) : Int) + 1 ≥ (N : Int) := by omega
    rw [if_pos hc, if_pos hd, hmod]
    simp

theorem od_periodic_run_cadence (N : Nat) (hN : 0 < N) (terminate : od_server_t → Int)
    (route_pool : od_routepool_t) (n : Nat) :
    ∃ st outs, od_periodic (N : Int) terminate n { route_pool := route_pool, tick := 0 } =
        some (st, outs) ∧
      outs.length = n ∧ st.tick = ((n % N : Nat) : Int) ∧
      (∀ t, t < n →
        ∃ out, outs.get? t = some out ∧ out.stats.isSome = decide (N ∣ t + 1)) ∧
      (1 ≤ n → N ∣ n → ∃ out, outs.getLast? = some out ∧
        out.stats = some (od_periodic_stats st.route_pool)) := by
  induction n with
  | zero => exact ⟨_, [], rfl, rfl, by simp, by intro t ht; omega, by intro h; omega⟩
  | succ n ih =>
    obtain ⟨st, outs, hrun, hlen, htick, houts, -⟩ := ih
    obtain ⟨swept, events, htk⟩ := od_periodic_tick_total (N : Int) terminate st
    rw [htick, od_periodic_tick_stats_step N n hN swept] at htk
    refine ⟨{ route_pool := swept, tick := (((n + 1) % N : Nat) : Int) },
      outs ++ [{ sweep := events,
                 stats := if N ∣ n + 1 then some (od_periodic_stats swept) else none }],
      by rw [od_periodic, hrun]; simp only [htk], by simp [hlen], rfl, ?_, ?_⟩
    rotate_left
    · intro _ hd
      exact ⟨{ sweep := events,
               stats := if N ∣ n + 1 then some (od_periodic_stats swept) else none },
        by simp, by simp [hd]⟩
    intro t ht
    rcases Nat.lt_or_ge t n with h | h
    · obtain ⟨out, ho, hs⟩ := houts t h
      refine ⟨out, ?_, hs⟩
      rw [List.get?_eq_getElem?, List.getElem?_append_left (by omega)]
      rw [List.get?_eq_getElem?] at ho
      exact ho
    · have ht : t = n := by omega
      subst ht
      refine ⟨{ sweep := events,
                stats := if N ∣ t + 1 then some (od_periodic_stats swept) else none },
        by rw [List.get?_eq_getElem?, ← hlen]; simp, ?_⟩
      by_cases hd : N ∣ t + 1 <;> simp [hd]

theorem od_periodic_run_disabled (terminate : od_server_t → Int) (st0 : od_periodic_state)
    (n : Nat) :
    ∃ st outs, od_periodic 0 terminate n st0 = some (st, outs) ∧ st.tick = st0.tick ∧
      ∀ out ∈ outs, out.stats = none := by
  induction n with
  | zero => exact ⟨st0, [], rfl, rfl, by simp⟩
  | succ n ih =>
    obtain ⟨st, outs, hrun, htick, houts⟩ := ih
    obtain ⟨swept, events, htk⟩ := od_periodic_tick_total 0 terminate st
    refine ⟨{ route_pool := swept, tick := (od_periodic_tick_stats 0 swept st.tick).1 },
      outs ++ [{ sweep := events, stats := (od_periodic_tick_stats 0 swept st.tick).2 }],
      by rw [od_periodic, hrun]; simp only [htk], ?_, ?_⟩
    · simp [od_periodic_tick_stats, htick]
    · intro out ho
      rcases List.mem_append.mp ho with ho | ho
      · exact houts out ho
      · simp only [List.mem_singleton] at ho
        subst ho
        simp [od_periodic_tick_stats]

theorem od_multiple_in_window (N a : Nat) (hN : 0 < N) :
    ∃! t, a < t ∧ t ≤ a + N ∧ N ∣ t := by
  refine ⟨N * (a / N + 1), ⟨Nat.lt_mul_div_succ a hN, ?_, Dvd.intro _ rfl⟩, ?_⟩
  · have := Nat.mul_div_le a N
    rw [Nat.mul_add, Nat.mul_one]
    omega
  · rintro t ⟨h1, h2, k, rfl⟩
    have hle := Nat.mul_div_le a N
    have hlt := Nat.lt_mul_div_succ a hN
    congr 1
    have hk1 : a / N < k := by
      by_contra hcon
      have : N * k ≤ N * (a / N) := Nat.mul_le_mul_left N (by omega)
      omega
    have hk2 : k < a / N + 2 := by
      by_contra hcon
      have : N * (a / N + 2) ≤ N * k := Nat.mul_le_mul_left N (by omega)
      rw [Nat.mul_add] at this hlt
      omega
    omega

/-! ## Claims on Periodic -/

/-- C10, as stated, fails: for a pool whose only route is static and has
neither client nor server, `od_periodic_stats` logs the header and a line for
that empty route. -/
theorem od_periodic_stats_counterexample :
    od_clientpool_total (ex_route 3 false [] []).client_pool = 0 ∧
    od_serverpool_total (ex_route 3 false [] []).server_pool = 0 ∧
    od_periodic_stats (ex_pool (ex_route 3 false [] [])) =
      [od_log_record.text "statistics", od_log_record.route_stats "db" "user" 0 0 0] := by
  decide

/-- C10, amended. An emission of `od_periodic_stats` is, after the header, one
line for every route of the route pool, empty or not, in insertion order, each
reporting that route's database, user, `od_clientpool_total`, `count_active`
and `count_idle`; nothing at all is logged when the pool counts no route. -/
theorem od_periodic_stats_lines (route_pool : od_routepool_t) :
    (route_pool.count = 0 → od_periodic_stats route_pool = []) ∧
    (route_pool.count ≠ 0 →
      (od_periodic_stats route_pool).head? = some (od_log_record.text "statistics") ∧
      (od_periodic_stats route_pool).tail.length = route_pool.list.length ∧
      ∀ (i : Nat) (route : od_route_t), route_pool.list.get? i = some route →
        (od_periodic_stats route_pool).tail.get? i =
          some (od_log_record.route_stats route.id.database route.id.user
            (od_clientpool_total route.client_pool)
            route.server_pool.count_active route.server_pool.count_idle)) := by
  constructor
  · intro h
    simp [od_periodic_stats, h]
  · intro h
    simp only [od_periodic_stats, h, if_false, List.head?_cons, List.tail_cons, List.length_map,
      true_and]
    intro i route hi
    simp [List.get?_eq_getElem?] at hi ⊢
    exact ⟨route, hi, rfl, rfl, rfl, rfl, rfl⟩

/-- C9. Statistics cadence: with `log_statistics = N > 0` the run of `n` ticks
of `od_periodic` from `tick = 0` returns, tick `t` calls `od_periodic_stats`
exactly when `N` divides `t`, the tick counter after `n` ticks is `n mod N`
(so it is 0 after each emission), every `N` consecutive ticks hold exactly
one emission, and what tick `n` emits when `N` divides `n` is
`od_periodic_stats` of the route pool that tick leaves; with
`log_statistics = 0` the counter stays 0 and no tick emits. -/
theorem od_periodic_stats_cadence (N : Nat) (hN : 0 < N) (terminate : od_server_t → Int)
    (route_pool : od_routepool_t) (n : Nat) :
    (∃ st outs, od_periodic (N : Int) terminate n { route_pool := route_pool, tick := 0 } =
        some (st, outs) ∧
      st.tick = ((n % N : Nat) : Int) ∧
      (∀ t, 1 ≤ t → t ≤ n → (od_stats_emitted outs t = true ↔ N ∣ t)) ∧
      (∀ a, a + N ≤ n → ∃! t, a < t ∧ t ≤ a + N ∧ od_stats_emitted outs t = true) ∧
      (1 ≤ n → N ∣ n → ∃ out, outs.getLast? = some out ∧
        out.stats = some (od_periodic_stats st.route_pool))) ∧
    (∃ st outs, od_periodic 0 terminate n { route_pool := route_pool, tick := 0 } =
        some (st, outs) ∧
      st.tick = 0 ∧ ∀ t, od_stats_emitted outs t = false) := by
  constructor
  · obtain ⟨st, outs, hrun, hlen, htick, houts, hlast⟩ :=
      od_periodic_run_cadence N hN terminate route_pool n
    have hem : ∀ t, 1 ≤ t → t ≤ n → (od_stats_emitted outs t = true ↔ N ∣ t) := by
      intro t h1 h2
      obtain ⟨t, rfl⟩ : ∃ k, t = k + 1 := ⟨t - 1, by omega⟩
      obtain ⟨out, ho, hs⟩ := houts t (by omega)
      simp only [od_stats_emitted, ho, hs, decide_eq_true_eq]
    refine ⟨st, outs, hrun, htick, hem, ?_, hlast⟩
    intro a ha
    obtain ⟨t, ⟨h1, h2, h3⟩, huniq⟩ := od_multiple_in_window N a hN
    refine ⟨t, ⟨h1, h2, (hem t (by omega) (by omega)).mpr h3⟩, ?_⟩
    rintro y ⟨y1, y2, y3⟩
    exact huniq y ⟨y1, y2, (hem y (by omega) (by omega)).mp y3⟩
  · obtain ⟨st, outs, hrun, htick, houts⟩ :=
      od_periodic_run_disabled terminate { route_pool := route_pool, tick := 0 } n
    refine ⟨st, outs, hrun, htick, ?_⟩
    intro t
    cases t with
    | zero => rfl
    | succ t =>
      simp only [od_stats_emitted]
      cases ho : outs.get? t with
      | none => rfl
      | some out =>
        have hmem : out ∈ outs := List.get?_mem ho
        simp [houts out hmem]

theorem od_periodic_stats_cadence_witness :
    0 < 5 ∧
    ∃ st outs, od_periodic ((5 : Nat) : Int) ex_terminate_fails 10
        { route_pool := ex_pool (ex_route 3 false [] [ex_server 1 0]), tick := 0 } =
        some (st, outs) ∧
      st.tick = ((10 % 5 : Nat) : Int) ∧
      (od_stats_emitted outs 5 = true ↔ 5 ∣ 5) ∧
      (od_stats_emitted outs 7 = true ↔ 5 ∣ 7) :=
  ⟨by decide,
   match (od_periodic_stats_cadence 5 (by decide) ex_terminate_fails
      (ex_pool (ex_route 3 false [] [ex_server 1 0])) 10).1 with
   | ⟨st, outs, hrun, htick, hem, _, _⟩ =>
     ⟨st, outs, hrun, htick, hem 5 (by decide) (by decide), hem 7 (by decide) (by decide)⟩⟩

/-- C2, as stated, fails for the TTL value 0: a freshly idle server
(`idle_time = 0`) of a route with `pool_ttl = 0` has `idle_time >= pool_ttl`,
and the aging pass leaves it in `IDLE` and moves nothing to `EXPIRE`. -/
theorem od_expire_not_missed_counterexample :
    (ex_route 0 false [] [ex_server 1 0]).scheme.pool_ttl ≤ (ex_server 1 0).idle_time ∧
    (od_routepool_foreach (ex_pool (ex_route 0 false [] [ex_server 1 0])) OD_SIDLE
      od_expire_mark).1 = ex_pool (ex_route 0 false [] [ex_server 1 0]) ∧
    (ex_route 0 false [] [ex_server 1 0]).server_pool.idle = [ex_server 1 0] ∧
    (ex_route 0 false [] [ex_server 1 0]).server_pool.expire = [] := by
  decide

/-- C2, amended. Expiry is not missed when the TTL is not zero: for every
route with `pool_ttl ≠ 0` and every server of its `IDLE` bucket with
`idle_time >= pool_ttl` when the aging pass of a tick starts, at the end of
that pass the server is in the route's `EXPIRE` bucket and no longer in its
`IDLE` bucket, wherever it stood in the bucket. With `pool_ttl = 0` aging is
disabled and no server is moved: the traversal of the route's `IDLE` bucket
runs to its end and leaves the route as it was, and the aging pass leaves that
route, at its place in the pool, as it was. -/
theorem od_expire_not_missed (pool : od_routepool_t) (r : od_route_t) (hr : r ∈ pool.list) :
    (∀ s, od_idle_wf r → r.scheme.pool_ttl ≠ 0 → s ∈ r.server_pool.idle →
      r.scheme.pool_ttl ≤ s.idle_time →
      ∃ r1 ∈ (od_routepool_foreach pool OD_SIDLE od_expire_mark).1.list,
        r1.id = r.id ∧ { s with state := OD_SEXPIRE } ∈ r1.server_pool.expire ∧
        ∀ x ∈ r1.server_pool.idle, x.id ≠ s.id) ∧
    (r.scheme.pool_ttl = 0 →
      od_serverpool_foreach r OD_SIDLE od_expire_mark = (r, none) ∧
      r ∈ (od_routepool_foreach pool OD_SIDLE od_expire_mark).1.list ∧
      ∀ i, pool.list.get? i = some r →
        (od_routepool_foreach pool OD_SIDLE od_expire_mark).1.list.get? i = some r) := by
  constructor
  · intro s hwf httl hs hge
    refine ⟨od_route_aged r, ?_, od_route_aged_id r,
      od_route_aged_expire_mem r s httl hs hge, ?_⟩
    · simp only [od_routepool_foreach, od_routepool_foreach_all, List.mem_map]
      exact ⟨r, hr, by rw [od_serverpool_foreach_expire_mark r hwf]⟩
    · intro x hx hid
      rw [od_route_aged_idle, if_neg httl] at hx
      obtain ⟨y, hy, hlt, rfl⟩ := od_aged_keep_of_mem _ _ x hx
      have hys : y = s := od_idle_same_id r hwf y s hy hs hid
      subst hys
      omega
  · intro hz
    have hsame : od_serverpool_foreach r OD_SIDLE od_expire_mark = (r, none) :=
      od_serverpool_foreach_loop_ttl_zero _ r hz
    refine ⟨hsame, ?_, ?_⟩
    · simp only [od_routepool_foreach, od_routepool_foreach_all, List.mem_map]
      exact ⟨r, hr, by rw [hsame]⟩
    · intro i hi
      simp only [od_routepool_foreach, od_routepool_foreach_all, List.get?_eq_getElem?,
        List.getElem?_map] at hi ⊢
      rw [hi]
      simp only [Option.map_some', hsame]

theorem od_expire_not_missed_witness :
    ex_route 3 false [] [ex_server 1 3, ex_server 2 0, ex_server 3 4] ∈
      (ex_pool (ex_route 3 false [] [ex_server 1 3, ex_server 2 0, ex_server 3 4])).list ∧
    od_idle_wf (ex_route 3 false [] [ex_server 1 3, ex_server 2 0, ex_server 3 4]) ∧
    (ex_route 3 false [] [ex_server 1 3, ex_server 2 0, ex_server 3 4]).scheme.pool_ttl ≠ 0 ∧
    ex_server 3 4 ∈
      (ex_route 3 false [] [ex_server 1 3, ex_server 2 0, ex_server 3 4]).server_pool.idle ∧
    (ex_route 3 false [] [ex_server 1 3, ex_server 2 0, ex_server 3 4]).scheme.pool_ttl ≤
      (ex_server 3 4).idle_time ∧
    (∃ r1 ∈ (od_routepool_foreach
        (ex_pool (ex_route 3 false [] [ex_server 1 3, ex_server 2 0, ex_server 3 4]))
        OD_SIDLE od_expire_mark).1.list,
      r1.id = (ex_route 3 false [] [ex_server 1 3, ex_server 2 0, ex_server 3 4]).id ∧
      { ex_server 3 4 with state := OD_SEXPIRE } ∈ r1.server_pool.expire ∧
      ∀ x ∈ r1.server_pool.idle, x.id ≠ (ex_server 3 4).id) ∧
    ex_route 0 false [] [ex_server 1 0] ∈ (ex_pool (ex_route 0 false [] [ex_server 1 0])).list ∧
    (ex_route 0 false [] [ex_server 1 0]).scheme.pool_ttl = 0 ∧
    od_serverpool_foreach (ex_route 0 false [] [ex_server 1 0]) OD_SIDLE od_expire_mark =
      (ex_route 0 false [] [ex_server 1 0], none) :=
  ⟨by decide, by decide, by decide, by decide, by decide,
   (od_expire_not_missed _ _ (by decide)).1 _ (by decide) (by decide) (by decide) (by decide),
   by decide, by decide,
   ((od_expire_not_missed (ex_pool (ex_route 0 false [] [ex_server 1 0]))
      (ex_route 0 false [] [ex_server 1 0]) (by decide)).2 (by decide)).1⟩

/-- C4. Reaping is complete and fault-isolated: from every pool state whose
counters match its buckets, and whatever `od_backend_terminate` answers on each
server, the sweep loop reaches its `break`; its events are, for each server of
the `EXPIRE` buckets taken route after route and head first, exactly once and in
this order: the debug line, the attach of its I/O, Terminate and close on the
server with `idle_time = 0`, `route = NULL` and state `UNDEF`, and
`od_routepool_gc`; no route is left with a server in `EXPIRE`; and the pool left
is the same for every other answer of `od_backend_terminate`. -/
theorem od_periodic_sweep_complete (terminate : od_server_t → Int) (pool : od_routepool_t)
    (fuel : Nat) (hwf : ∀ r ∈ pool.list, od_counters_wf r)
    (hfuel : od_expire_pending pool.list < fuel) :
    ∃ pool1, od_periodic_sweep terminate fuel pool =
        some (pool1, od_reap_events terminate (od_expire_servers pool.list)) ∧
      (∀ r ∈ pool1.list, r.server_pool.expire = []) ∧
      (∀ s ∈ od_expire_servers pool.list,
        od_periodic_event.backend_terminate (od_server_reaped s)
          (terminate (od_server_reaped s)) ∈
            od_reap_events terminate (od_expire_servers pool.list) ∧
        od_periodic_event.backend_close (od_server_reaped s) ∈
          od_reap_events terminate (od_expire_servers pool.list)) ∧
      (od_reap_events terminate (od_expire_servers pool.list)).length =
        5 * (od_expire_servers pool.list).length ∧
      ∀ terminate1 : od_server_t → Int, od_periodic_sweep terminate1 fuel pool =
        some (pool1, od_reap_events terminate1 (od_expire_servers pool.list)) := by
  refine ⟨od_routepool_swept pool, od_periodic_sweep_eq terminate fuel pool hwf hfuel, ?_, ?_, ?_,
    fun terminate1 => od_periodic_sweep_eq terminate1 fuel pool hwf hfuel⟩
  · intro r hr
    obtain ⟨r0, -, rfl⟩ := od_routepool_swept_mem pool r hr
    rfl
  · intro s hs
    have h := (od_reap_events_servers terminate (od_expire_servers pool.list)).1 s hs
    exact ⟨h.2.1, h.2.2⟩
  · generalize od_expire_servers pool.list = servers
    induction servers with
    | nil => rfl
    | cons s rest ih =>
      rw [od_reap_events_cons, List.length_append, ih]
      simp [od_reap_events]
      ring

theorem od_periodic_sweep_complete_witness :
    (∀ r ∈ ex_pool_expiring.list, od_counters_wf r) ∧
    od_expire_pending ex_pool_expiring.list < 4 ∧
    ∃ pool1, od_periodic_sweep ex_terminate_fails 4 ex_pool_expiring =
        some (pool1, od_reap_events ex_terminate_fails
          (od_expire_servers ex_pool_expiring.list)) ∧
      ∀ r ∈ pool1.list, r.server_pool.expire = [] :=
  ⟨by decide, by decide,
   match od_periodic_sweep_complete ex_terminate_fails ex_pool_expiring 4 (by decide)
      (by decide) with
   | ⟨pool1, h1, h2, _⟩ => ⟨pool1, h1, h2⟩⟩

/-- C5, as stated, fails: after the aging pass of a route with `pool_ttl = 3`
the two servers that left `IDLE` sit in `EXPIRE` with `idle_time = 3`, and once
the sweep has reaped the first of them, the second is still in `EXPIRE` with
`idle_time = 3`. -/
theorem od_idle_time_reset_counterexample :
    (od_routepool_foreach (ex_pool (ex_route 3 false [] [ex_server 1 3, ex_server 2 3]))
      OD_SIDLE od_expire_mark).1.list.map (fun r => r.server_pool.expire) =
        [[ex_server_expire 1 3, ex_server_expire 2 3]] ∧
    (ex_server_expire 2 3).idle_time = 3 ∧
    (od_routepool_next
      (od_routepool_foreach (ex_pool (ex_route 3 false [] [ex_server 1 3, ex_server 2 3]))
        OD_SIDLE od_expire_mark).1 OD_SEXPIRE).map
      (fun x => (od_periodic_reap ex_terminate_fails x.1 x.2.1 x.2.2).1.list.map
        (fun r => r.server_pool.expire)) = some [[ex_server_expire 2 3]] := by
  decide

/-- C5, amended. A server that the aging pass moves from `IDLE` to `EXPIRE`
keeps the `idle_time` it had (at least `pool_ttl`) while it waits in `EXPIRE`;
its `idle_time` is reset when the sweep takes it out of `EXPIRE`: the sweep of
the same tick logs the idle time it had, and every server it hands to
`od_backend_terminate` and `od_backend_close`, this one included, has
`idle_time = 0`. -/
theorem od_idle_time_reset_on_reap (terminate : od_server_t → Int) (pool : od_routepool_t)
    (r : od_route_t) (s : od_server_t) (hwf : od_pool_wf pool) (hr : r ∈ pool.list)
    (httl : r.scheme.pool_ttl ≠ 0) (hs : s ∈ r.server_pool.idle)
    (hge : r.scheme.pool_ttl ≤ s.idle_time) :
    ∃ r1 ∈ (od_routepool_foreach pool OD_SIDLE od_expire_mark).1.list,
      r1.id = r.id ∧
      { s with state := OD_SEXPIRE } ∈ r1.server_pool.expire ∧
      ∃ pool1 events,
        od_periodic_sweep terminate
          (od_expire_pending (od_routepool_foreach pool OD_SIDLE od_expire_mark).1.list + 1)
          (od_routepool_foreach pool OD_SIDLE od_expire_mark).1 = some (pool1, events) ∧
        od_periodic_event.debug_closing s.id s.idle_time ∈ events ∧
        od_periodic_event.backend_close
          { s with state := OD_SUNDEF, idle_time := 0, route := none } ∈ events ∧
        (∀ server, od_periodic_event.backend_close server ∈ events → server.idle_time = 0) ∧
        (∀ server rc, od_periodic_event.backend_terminate server rc ∈ events →
          server.idle_time = 0) := by
  have haged : (od_routepool_foreach pool OD_SIDLE od_expire_mark).1 =
      { pool with list := pool.list.map od_route_aged } := by
    simp only [od_routepool_foreach,
      od_routepool_foreach_loop_expire_mark pool.list (fun x hx => (hwf x hx).1)]
  have hcnt : ∀ x ∈ pool.list.map od_route_aged, od_counters_wf x := by
    intro x hx
    obtain ⟨y, hy, rfl⟩ := List.mem_map.mp hx
    exact od_route_aged_counters y (hwf y hy).2
  have hexp := od_route_aged_expire_mem r s httl hs hge
  have hmem : { s with state := OD_SEXPIRE } ∈
      od_expire_servers (pool.list.map od_route_aged) := by
    simp only [od_expire_servers, List.mem_flatMap, List.mem_map]
    exact ⟨od_route_aged r, ⟨r, hr, rfl⟩, hexp⟩
  obtain ⟨hev1, hev2, hev3⟩ :=
    od_reap_events_servers terminate (od_expire_servers (pool.list.map od_route_aged))
  rw [haged]
  refine ⟨od_route_aged r, List.mem_map_of_mem _ hr, od_route_aged_id r, hexp, _, _,
    od_periodic_sweep_eq terminate _ _ hcnt (Nat.lt_succ_self _), (hev1 _ hmem).1,
    (hev1 _ hmem).2.2, ?_, ?_⟩
  · intro server h
    obtain ⟨x, -, rfl⟩ := hev2 server h
    rfl
  · intro server rc h
    obtain ⟨x, -, rfl⟩ := hev3 server rc h
    rfl

theorem od_idle_time_reset_on_reap_witness :
    od_pool_wf (ex_pool (ex_route 3 false [] [ex_server 1 3, ex_server 2 3])) ∧
    ex_route 3 false [] [ex_server 1 3, ex_server 2 3] ∈
      (ex_pool (ex_route 3 false [] [ex_server 1 3, ex_server 2 3])).list ∧
    (ex_route 3 false [] [ex_server 1 3, ex_server 2 3]).scheme.pool_ttl ≠ 0 ∧
    ex_server 2 3 ∈ (ex_route 3 false [] [ex_server 1 3, ex_server 2 3]).server_pool.idle ∧
    (ex_route 3 false [] [ex_server 1 3, ex_server 2 3]).scheme.pool_ttl ≤
      (ex_server 2 3).idle_time ∧
    ∃ r1 ∈ (od_routepool_foreach (ex_pool (ex_route 3 false [] [ex_server 1 3, ex_server 2 3]))
        OD_SIDLE od_expire_mark).1.list,
      { ex_server 2 3 with state := OD_SEXPIRE } ∈ r1.server_pool.expire :=
  ⟨by decide, by decide, by decide, by decide, by decide,
   match od_idle_time_reset_on_reap ex_terminate_fails
      (ex_pool (ex_route 3 false [] [ex_server 1 3, ex_server 2 3]))
      (ex_route 3 false [] [ex_server 1 3, ex_server 2 3]) (ex_server 2 3)
      (by decide) (by decide) (by decide) (by decide) (by decide) with
   | ⟨r1, h1, _, h3, _⟩ => ⟨r1, h1, h3⟩⟩

/-- C3. Aging step size: one tick returns, and a server that is in the `IDLE`
bucket of its route before and after the tick has afterwards its previous
`idle_time` plus 1 when the route's `pool_ttl > 0` and its previous `idle_time`
when `pool_ttl = 0`; with `pool_ttl = 0` a server that starts with
`idle_time = 0` is still in `IDLE`, unchanged, after any number of ticks. -/
theorem od_aging_step_size (log_statistics : Int) (terminate : od_server_t → Int)
    (st : od_periodic_state) (r : od_route_t) (s : od_server_t)
    (hwf : od_pool_wf st.route_pool)
    (hids : (st.route_pool.list.map (fun x => x.id)).Nodup)
    (hr : r ∈ st.route_pool.list) (hs : s ∈ r.server_pool.idle) :
    (∃ st1 out, od_periodic_tick log_statistics terminate st = some (st1, out) ∧
      ∀ r1 ∈ st1.route_pool.list, r1.id = r.id →
        ∀ s1 ∈ r1.server_pool.idle, s1.id = s.id →
          (0 < r.scheme.pool_ttl → s1.idle_time = s.idle_time + 1) ∧
          (r.scheme.pool_ttl = 0 → s1.idle_time = s.idle_time)) ∧
    (r.scheme.pool_ttl = 0 → s.idle_time = 0 →
      ∀ n, ∃ st1 outs, od_periodic log_statistics terminate n st = some (st1, outs) ∧
        ∃ r1 ∈ st1.route_pool.list, r1.id = r.id ∧ s ∈ r1.server_pool.idle ∧
          s.state = OD_SIDLE ∧ s.idle_time = 0) := by
  constructor
  · obtain ⟨st1, out, htick, -, hmem, -, -, -, -⟩ :=
      od_periodic_tick_spec log_statistics terminate st hwf
    refine ⟨st1, out, htick, ?_⟩
    intro r1 hr1 hid s1 hs1 hsid
    obtain ⟨r0, hr0, rfl⟩ := hmem r1 hr1
    rw [od_route_step_id] at hid
    have h0 : r0 = r := od_route_same_id _ hids r0 r hr0 hr hid
    subst h0
    rw [od_route_step_idle] at hs1
    constructor
    · intro hpos
      rw [if_neg (by omega)] at hs1
      obtain ⟨y, hy, -, rfl⟩ := od_aged_keep_of_mem _ _ s1 hs1
      have hys : y = s := od_idle_same_id r0 (hwf r0 hr0).1 y s hy hs hsid
      rw [hys]
    · intro hz
      rw [if_pos hz] at hs1
      have hys : s1 = s := od_idle_same_id r0 (hwf r0 hr0).1 s1 s hs1 hs hsid
      rw [hys]
  · intro hz h0 n
    obtain ⟨st1, outs, hrun, -, -, hkeep, -⟩ :=
      od_periodic_run_spec log_statistics terminate n st hwf
    have hidle : ∀ k, s ∈ (od_route_step^[k] r).server_pool.idle := by
      intro k
      rw [od_route_step_iter_disabled r hz k]
      exact hs
    refine ⟨st1, outs, hrun, od_route_step^[n] r, ?_, (od_route_step_iter_fields r n).1,
      hidle n, (hwf r hr).1.1 s hs, h0⟩
    apply hkeep r hr
    intro k _ _
    exact od_route_used_of_idle _ (od_route_step_iter_wf r (hwf r hr) k).2 s (hidle k)

theorem od_aging_step_size_witness :
    od_pool_wf (ex_pool (ex_route 0 true [] [ex_server 1 0])) ∧
    ((ex_pool (ex_route 0 true [] [ex_server 1 0])).list.map (fun x => x.id)).Nodup ∧
    ex_route 0 true [] [ex_server 1 0] ∈ (ex_pool (ex_route 0 true [] [ex_server 1 0])).list ∧
    ex_server 1 0 ∈ (ex_route 0 true [] [ex_server 1 0]).server_pool.idle ∧
    ∃ st1 outs, od_periodic 0 ex_terminate_fails 100
        { route_pool := ex_pool (ex_route 0 true [] [ex_server 1 0]), tick := 0 } =
        some (st1, outs) ∧
      ∃ r1 ∈ st1.route_pool.list, r1.id = (ex_route 0 true [] [ex_server 1 0]).id ∧
        ex_server 1 0 ∈ r1.server_pool.idle ∧
        (ex_server 1 0).state = OD_SIDLE ∧ (ex_server 1 0).idle_time = 0 :=
  ⟨by decide, by decide, by decide, by decide,
   (od_aging_step_size 0 ex_terminate_fails
      { route_pool := ex_pool (ex_route 0 true [] [ex_server 1 0]), tick := 0 }
      (ex_route 0 true [] [ex_server 1 0]) (ex_server 1 0)
      (by decide) (by decide) (by decide) (by decide)).2 (by decide) (by decide) 100⟩

/-- C1, as stated, fails on routes that hold another server. In a route with
`pool_ttl = 1` that serves a client on an active server, after tick
`T + 1 = 2` the idle server is gone but `count_active` is 1. In a dynamic,
client-less route with `pool_ttl = 1` that also holds a server in `CLOSE`,
after tick 2 the idle server is gone, `count_close` is 1 and the route is
still in the pool. -/
theorem od_ttl_expiry_counterexample :
    ex_route_busy.scheme.pool_ttl = 1 ∧
    ex_route_busy.server_pool.idle = [ex_server 1 0] ∧
    (ex_server 1 0).idle_time = 0 ∧
    (od_periodic 0 ex_terminate_fails 2
      { route_pool := ex_pool ex_route_busy, tick := 0 }).map (fun x => x.1.route_pool) =
      some (ex_pool ex_route_busy_after) ∧
    ex_route_busy_after.server_pool.count_active = 1 ∧
    (ex_route_closing [ex_server 1 0]).scheme.pool_ttl = 1 ∧
    (ex_route_closing [ex_server 1 0]).server_pool.idle = [ex_server 1 0] ∧
    (od_periodic 0 ex_terminate_fails 2
      { route_pool := ex_pool (ex_route_closing [ex_server 1 0]), tick := 0 }).map
        (fun x => x.1.route_pool) = some (ex_pool (ex_route_closing [])) ∧
    (ex_route_closing []).server_pool.count_close = 1 ∧
    (ex_route_closing []).scheme.is_dynamic = true ∧
    od_clientpool_total (ex_route_closing []).client_pool = 0 := by
  decide

/-- C1, amended. TTL expiry timing: for a route with `pool_ttl = T > 0` and a
server of its `IDLE` bucket with `idle_time = 0`, after `k` ticks with
`1 <= k <= T` the server is in `IDLE` with `idle_time = k`; tick `T + 1` reaps
it (the sweep of that tick logs its idle time `T` and closes it) and leaves it
in neither the `IDLE` nor the `EXPIRE` bucket of the route. When moreover the
route holds no server in `ACTIVE`, `CONNECT` or `CLOSE` and no idle time is
negative, after tick `T + 1` every server counter of the route is zero, and the
route is no longer in the pool if it is dynamic and has no clients. -/
theorem od_ttl_expiry_timing (log_statistics : Int) (terminate : od_server_t → Int)
    (st : od_periodic_state) (r : od_route_t) (s : od_server_t) (T : Nat)
    (hwf : od_pool_wf st.route_pool)
    (hids : (st.route_pool.list.map (fun x => x.id)).Nodup)
    (hr : r ∈ st.route_pool.list) (hT : r.scheme.pool_ttl = (T : Int)) (hpos : 0 < T)
    (hs : s ∈ r.server_pool.idle) (h0 : s.idle_time = 0) :
    (∀ k, 1 ≤ k → k ≤ T →
      ∃ st1 outs, od_periodic log_statistics terminate k st = some (st1, outs) ∧
        ∃ r1 ∈ st1.route_pool.list, r1.id = r.id ∧
          { s with idle_time := (k : Int) } ∈ r1.server_pool.idle) ∧
    (∃ st1 outs out,
      od_periodic log_statistics terminate (T + 1) st = some (st1, outs ++ [out]) ∧
      outs.length = T ∧
      od_periodic_event.debug_closing s.id (T : Int) ∈ out.sweep ∧
      od_periodic_event.backend_close
        { s with state := OD_SUNDEF, idle_time := 0, route := none } ∈ out.sweep ∧
      (∀ r1 ∈ st1.route_pool.list, r1.id = r.id →
        (∀ x ∈ r1.server_pool.idle, x.id ≠ s.id) ∧ r1.server_pool.expire = []) ∧
      (r.server_pool.active = [] ∧ r.server_pool.connect = [] ∧ r.server_pool.close = [] ∧
          (∀ x ∈ r.server_pool.idle, 0 ≤ x.idle_time) →
        (∀ r1 ∈ st1.route_pool.list, r1.id = r.id →
          r1.server_pool.count_active = 0 ∧ r1.server_pool.count_connect = 0 ∧
          r1.server_pool.count_idle = 0 ∧ r1.server_pool.count_expire = 0 ∧
          r1.server_pool.count_close = 0) ∧
        (r.scheme.is_dynamic = true → od_clientpool_total r.client_pool = 0 →
          ∀ r1 ∈ st1.route_pool.list, r1.id ≠ r.id))) := by
  have hage := od_route_step_iter_aging r s T hT hpos hs h0
  have hused : ∀ k, k ≤ T → od_route_is_unused (od_route_step^[k] r) = false := fun k hk =>
    od_route_used_of_idle _ (od_route_step_iter_wf r (hwf r hr) k).2 _ (hage k hk)
  constructor
  · intro k _ hk
    obtain ⟨st1, outs, hrun, -, -, hkeep, -⟩ :=
      od_periodic_run_spec log_statistics terminate k st hwf
    exact ⟨st1, outs, hrun, od_route_step^[k] r,
      hkeep r hr (fun j _ hj => hused j (by omega)), (od_route_step_iter_fields r k).1,
      hage k hk⟩
  · obtain ⟨stT, outs, hrun, hwfT, hmemT, hkeepT, -⟩ :=
      od_periodic_run_spec log_statistics terminate T st hwf
    obtain ⟨st1, out, htick, -, hmem1, -, -, hsweep, hgc⟩ :=
      od_periodic_tick_spec log_statistics terminate stT hwfT
    have hrT : od_route_step^[T] r ∈ stT.route_pool.list :=
      hkeepT r hr (fun j _ hj => hused j hj)
    have hfT := od_route_step_iter_fields r T
    have hwfrT := od_route_step_iter_wf r (hwf r hr) T
    have httlT : (od_route_step^[T] r).scheme.pool_ttl = (T : Int) := by rw [hfT.2.1, hT]
    have hneT : (od_route_step^[T] r).scheme.pool_ttl ≠ 0 := by rw [httlT]; omega
    have hexp := od_route_aged_expire_mem (od_route_step^[T] r) { s with idle_time := (T : Int) }
      hneT (hage T (le_refl _)) (by rw [httlT])
    have hservers : { s with idle_time := (T : Int), state := OD_SEXPIRE } ∈
        od_expire_servers (stT.route_pool.list.map od_route_aged) := by
      simp only [od_expire_servers, List.mem_flatMap, List.mem_map]
      exact ⟨od_route_aged (od_route_step^[T] r), ⟨_, hrT, rfl⟩, hexp⟩
    have hev := (od_reap_events_servers terminate
      (od_expire_servers (stT.route_pool.list.map od_route_aged))).1 _ hservers
    have hback : ∀ r1 ∈ st1.route_pool.list, r1.id = r.id →
        r1 = od_route_step (od_route_step^[T] r) := by
      intro r1 hr1 hid
      obtain ⟨ra, hra, rfl⟩ := hmem1 r1 hr1
      obtain ⟨rb, hrb, rfl⟩ := hmemT ra hra
      rw [od_route_step_id, (od_route_step_iter_fields rb T).1] at hid
      rw [od_route_same_id _ hids rb r hrb hr hid]
    refine ⟨st1, outs, out, by rw [od_periodic, hrun]; simp only [htick],
      od_periodic_length _ _ _ _ _ _ hrun, by rw [hsweep]; exact hev.1,
      by rw [hsweep]; exact hev.2.2, ?_, ?_⟩
    · intro r1 hr1 hid
      rw [hback r1 hr1 hid]
      refine ⟨?_, rfl⟩
      intro x hx hxid
      rw [od_route_step_idle, if_neg hneT, httlT] at hx
      obtain ⟨y, hy, hlt, rfl⟩ := od_aged_keep_of_mem _ _ x hx
      have hys := od_idle_same_id _ hwfrT.1 y { s with idle_time := (T : Int) } hy
        (hage T (le_refl _)) hxid
      rw [hys] at hlt
      simp only at hlt
      omega
    · rintro ⟨ha, hc, hcl, hnn⟩
      have hzero : ∀ r1 ∈ st1.route_pool.list, r1.id = r.id →
          r1.server_pool.count_active = 0 ∧ r1.server_pool.count_connect = 0 ∧
          r1.server_pool.count_idle = 0 ∧ r1.server_pool.count_expire = 0 ∧
          r1.server_pool.count_close = 0 := by
        intro r1 hr1 hid
        rw [hback r1 hr1 hid]
        obtain ⟨c1, c2, c3, c4, c5⟩ := (od_route_step_wf _ hwfrT).2
        obtain ⟨g1, g2, g3⟩ := od_route_step_others (od_route_step^[T] r)
        have hidle : (od_route_step (od_route_step^[T] r)).server_pool.idle = [] := by
          rw [List.eq_nil_iff_forall_not_mem]
          intro x hx
          rw [od_route_step_idle, if_neg hneT, httlT] at hx
          obtain ⟨y, hy, hlt, rfl⟩ := od_aged_keep_of_mem _ _ x hx
          have := od_route_step_iter_lower r (by rw [hT]; omega) hnn T y hy
          omega
        rw [c1, c2, c3, c4, c5, g1, g2, g3, hfT.2.2.2.1, hfT.2.2.2.2.1, hfT.2.2.2.2.2, ha, hc,
          hcl, hidle, od_route_step_expire]
        simp
      refine ⟨hzero, ?_⟩
      intro hdyn hcli r1 hr1 hid
      have hu := hgc (List.ne_nil_of_mem hservers) r1 hr1
      obtain ⟨z1, z2, z3, z4, z5⟩ := hzero r1 hr1 hid
      have hb := hback r1 hr1 hid
      have hsch : r1.scheme = r.scheme := by
        rw [hb, od_route_step_scheme, hfT.2.1]
      have hcp : r1.client_pool = r.client_pool := by
        rw [hb, od_route_step_client_pool, hfT.2.2.1]
      simp [od_route_is_unused, od_serverpool_total, z1, z2, z3, z4, z5, hsch, hcp, hdyn,
        hcli] at hu

theorem od_ttl_expiry_timing_witness :
    od_pool_wf (ex_pool (ex_route 3 true [] [ex_server 1 0])) ∧
    ((ex_pool (ex_route 3 true [] [ex_server 1 0])).list.map (fun x => x.id)).Nodup ∧
    ex_route 3 true [] [ex_server 1 0] ∈ (ex_pool (ex_route 3 true [] [ex_server 1 0])).list ∧
    (ex_route 3 true [] [ex_server 1 0]).scheme.pool_ttl = ((3 : Nat) : Int) ∧
    0 < 3 ∧
    ex_server 1 0 ∈ (ex_route 3 true [] [ex_server 1 0]).server_pool.idle ∧
    (ex_server 1 0).idle_time = 0 ∧
    (∃ st1 outs, od_periodic 0 ex_terminate_fails 3
        { route_pool := ex_pool (ex_route 3 true [] [ex_server 1 0]), tick := 0 } =
        some (st1, outs) ∧
      ∃ r1 ∈ st1.route_pool.list, r1.id = (ex_route 3 true [] [ex_server 1 0]).id ∧
        { ex_server 1 0 with idle_time := ((3 : Nat) : Int) } ∈ r1.server_pool.idle) ∧
    (∃ st1 outs out, od_periodic 0 ex_terminate_fails (3 + 1)
        { route_pool := ex_pool (ex_route 3 true [] [ex_server 1 0]), tick := 0 } =
        some (st1, outs ++ [out]) ∧
      od_periodic_event.backend_close
        { ex_server 1 0 with state := OD_SUNDEF, idle_time := 0, route := none } ∈ out.sweep ∧
      ∀ r1 ∈ st1.route_pool.list, r1.id ≠ (ex_route 3 true [] [ex_server 1 0]).id) := by
  have h := od_ttl_expiry_timing 0 ex_terminate_fails
    { route_pool := ex_pool (ex_route 3 true [] [ex_server 1 0]), tick := 0 }
    (ex_route 3 true [] [ex_server 1 0]) (ex_server 1 0) 3
    (by decide) (by decide) (by decide) (by decide) (by decide) (by decide) (by decide)
  refine ⟨by decide, by decide, by decide, by decide, by decide, by decide, by decide,
    h.1 3 (by decide) (by decide), ?_⟩
  obtain ⟨st1, outs, out, hrun, -, -, hclose, -, hclean⟩ := h.2
  exact ⟨st1, outs, out, hrun, hclose,
    (hclean ⟨by decide, by decide, by decide, by decide⟩).2 (by decide) (by decide)⟩

end Odissey
